import Mathlib

/-!
# Yes/No Othello — verification of the turn/state engine

Shallow embedding of `src/game/core.py` (class `OthelloGame`) together with
the call signature of `src/game/gif_utils.py:load_gif_from_url`.  The numpy
board is embedded as its value: a list of 8 rows of 8 cells; the scanning
`while` loops of `_can_flip` / `_flip_pieces` / `_simulate_move` are
translated as one pair of fueled scanners (`scanRun`, `scanEnd`) — fuel 8
dominates every ray of an 8×8 board.  The engine is modelled headless
(`screen=None`, `show_gifs=False`, `ai_type=AI_NONE`), so the UI helpers
(`_maybe_show_gif_popup`, `_show_turn_banner`, `_schedule_ai_delay`,
`_pause_on_board`) reduce to no-ops exactly as the source's early-return
guards make them; `random.choice` is an explicit entropy argument.  A ghost
field `inflight` records each `threading.Thread(...).start()` performed by
`_start_fetch_thread` and not yet completed, so that single-flight
properties of background fetches are statable.
-/

namespace YesNoOthello

/-- Modelled from the spec: `constants.py` is not under `src/`.  The board
is 8×8 ("an 8×8 grid of tri-state cells"); `np.zeros` forces `EMPTY = 0`;
the two stone ids are distinct nonzero integers. -/
def BOARD_SIZE : Int := 8

/-- Modelled from the spec: the `Empty` cell value, forced to `0` by the
`np.zeros((BOARD_SIZE, BOARD_SIZE), dtype=int)` initialization. -/
def EMPTY : Int := 0

/-- Modelled from the spec: SideA's stone id (the "yes" side). -/
def YES_STONE : Int := 1

/-- Modelled from the spec: SideB's stone id (the "no" side). -/
def NO_STONE : Int := 2

/-- Modelled from the spec: the 8 capture directions ("each of the 8
directions", orthogonal and diagonal unit steps). -/
def DIRECTIONS : List (Int × Int) :=
  [(-1, -1), (-1, 0), (-1, 1), (0, -1), (0, 1), (1, -1), (1, 0), (1, 1)]

/-- The numpy array `self.board`, by value: 8 rows of 8 cells. -/
abbrev Board : Type := List (List Int)

/-- `board[r, c]` read.  Every read the source performs is either guarded by
`0 <= r < BOARD_SIZE and 0 <= c < BOARD_SIZE` or made at an in-bounds
placement target, so the out-of-range default is never observable. -/
def getCell (b : Board) (r c : Int) : Int :=
  (b.getD r.toNat []).getD c.toNat EMPTY

/-- `board[r, c] = v` (numpy single-cell assignment; in-bounds whenever the
source performs it). -/
def setCell (b : Board) (r c v : Int) : Board :=
  b.set r.toNat ((b.getD r.toNat []).set c.toNat v)

/-- The bound check `0 <= r < BOARD_SIZE and 0 <= c < BOARD_SIZE`. -/
def inB (r c : Int) : Prop :=
  0 ≤ r ∧ r < BOARD_SIZE ∧ 0 ≤ c ∧ c < BOARD_SIZE

instance (r c : Int) : Decidable (inB r c) := by
  unfold inB; infer_instance

/-- `OthelloGame._opponent` (core.py:374-376): total over all cell values,
`YES_STONE` exactly on `NO_STONE`, `NO_STONE` on everything else. -/
def opponent (stone : Int) : Int :=
  if stone = NO_STONE then YES_STONE else NO_STONE

/-- The shared `while` loop of `_can_flip` / `_flip_pieces` /
`_simulate_move`: the contiguous run of `opp`-cells from `(r, c)` in
direction `(dr, dc)`, staying in bounds.  `fuel = 8` dominates any in-board
ray. -/
def scanRun (b : Board) (dr dc opp : Int) : Int → Int → Nat → List (Int × Int)
  | _, _, 0 => []
  | r, c, fuel + 1 =>
    if inB r c ∧ getCell b r c = opp then
      (r, c) :: scanRun b dr dc opp (r + dr) (c + dc) fuel
    else []

/-- The position at which the shared `while` loop stops (the candidate
bounding cell). -/
def scanEnd (b : Board) (dr dc opp : Int) : Int → Int → Nat → Int × Int
  | r, c, 0 => (r, c)
  | r, c, fuel + 1 =>
    if inB r c ∧ getCell b r c = opp then scanEnd b dr dc opp (r + dr) (c + dc) fuel
    else (r, c)

/-- `OthelloGame._can_flip` (core.py:74-86): at least one opponent cell was
traversed and the loop stopped in bounds on a `stone` cell. -/
def can_flip (b : Board) (row col dr dc stone : Int) : Bool :=
  let opp := opponent stone
  let run := scanRun b dr dc opp (row + dr) (col + dc) 8
  let e := scanEnd b dr dc opp (row + dr) (col + dc) 8
  decide (run ≠ [] ∧ inB e.1 e.2 ∧ getCell b e.1 e.2 = stone)

/-- `OthelloGame.is_valid_move` (core.py:64-72), with the `stone=None`
default already resolved to the caller's argument (the source substitutes
`self.current_side`; `current_side` is never `None`). -/
def is_valid_move (b : Board) (row col stone : Int) : Bool :=
  if getCell b row col ≠ EMPTY then false
  else DIRECTIONS.any fun d => can_flip b row col d.1 d.2 stone

/-- The cells `_flip_pieces` would flip in one direction: the traversed run
when it is properly bounded by a `stone` cell, `[]` otherwise. -/
def dirFlips (b : Board) (row col dr dc stone : Int) : List (Int × Int) :=
  let opp := opponent stone
  let run := scanRun b dr dc opp (row + dr) (col + dc) 8
  let e := scanEnd b dr dc opp (row + dr) (col + dc) 8
  if inB e.1 e.2 ∧ getCell b e.1 e.2 = stone then run else []

/-- `OthelloGame._flip_pieces` (core.py:114-127): collect the run, return
the board unchanged unless the loop stopped in bounds on a `stone` cell,
else write `stone` over the run. -/
def flip_pieces (b : Board) (row col dr dc stone : Int) : Board :=
  (dirFlips b row col dr dc stone).foldl (fun bb p => setCell bb p.1 p.2 stone) b

/-- `OthelloGame._apply_maybe_event` (core.py:350-359): the two nested
`for dr/dc in (-1, 0, 1)` loops, skipping `(0, 0)`, flipping each in-bounds
neighbor that holds the opponent of the placed stone. -/
def apply_maybe_event (b : Board) (row col placed : Int) : Board :=
  ([-1, 0, 1] : List Int).foldl
    (fun b1 dr =>
      ([-1, 0, 1] : List Int).foldl
        (fun b2 dc =>
          if dr = 0 ∧ dc = 0 then b2
          else
            let r := row + dr
            let c := col + dc
            if inB r c ∧ getCell b2 r c = opponent placed then setCell b2 r c placed
            else b2)
        b1)
    b

/-- Row-major cell indices, `range(BOARD_SIZE)`. -/
def idx : List Int := [0, 1, 2, 3, 4, 5, 6, 7]

/-- All board coordinates in row-major order. -/
def allCells : List (Int × Int) := idx.flatMap fun r => idx.map fun c => (r, c)

/-- `np.any(self.board == EMPTY)`. -/
def boardHasEmpty (b : Board) : Bool :=
  allCells.any fun p => getCell b p.1 p.2 == EMPTY

/-- `np.sum(board == v)`: the number of board cells holding `v`. -/
def countStones (b : Board) (v : Int) : Nat :=
  allCells.countP fun p => getCell b p.1 p.2 == v

/-- `OthelloGame.get_valid_moves` (core.py:136-138) generalized over the
stone (the source fixes `self.current_side`): row-major legal cells. -/
def valid_moves (b : Board) (stone : Int) : List (Int × Int) :=
  allCells.filter fun p => is_valid_move b p.1 p.2 stone

/-- `np.zeros((BOARD_SIZE, BOARD_SIZE), dtype=int)`. -/
def emptyBoard : Board := List.replicate 8 (List.replicate 8 EMPTY)

/-- The initial four-stone position (core.py:37-39). -/
def initialBoard : Board :=
  setCell (setCell (setCell (setCell emptyBoard 3 3 NO_STONE) 4 4 NO_STONE)
    3 4 YES_STONE) 4 3 YES_STONE

/-- The shape invariant of the numpy array: 8 rows of length 8. -/
def boardWF (b : Board) : Prop :=
  b.length = 8 ∧ ∀ row ∈ b, row.length = 8

instance (b : Board) : Decidable (boardWF b) := by
  unfold boardWF; infer_instance

/-- The 8 neighbor offsets the `_apply_maybe_event` loops enumerate, in
loop order. -/
def nbrOffsets : List (Int × Int) :=
  [(-1, -1), (-1, 0), (-1, 1), (0, -1), (0, 1), (1, -1), (1, 0), (1, 1)]

/-- One iteration of the `_apply_maybe_event` loop body. -/
def maybeStep (row col placed : Int) (bb : Board) (o : Int × Int) : Board :=
  if inB (row + o.1) (col + o.2) ∧ getCell bb (row + o.1) (col + o.2) = opponent placed then
    setCell bb (row + o.1) (col + o.2) placed
  else bb

/-- `STONE_TO_TEXT.get(stone, "-")` / `OthelloGame.player_name`
(core.py:378-380); the mapping itself is modelled from the spec
("exhaustive enum-to-string mapping") since `constants.py` is not under
`src/`. -/
def player_name (stone : Int) : String :=
  if stone = YES_STONE then "YES" else if stone = NO_STONE then "NO" else "-"

/-- `random.choice([YES_STONE, NO_STONE])`, with the drawn bit made an
explicit entropy argument. -/
def randomChoice2 (b : Bool) : Int :=
  if b then YES_STONE else NO_STONE

/-- The per-side result cache `self.prefetched_results`, a Python dict from
side id to an optional `(answer, gif)` pair; writes shadow, `get` reads the
newest binding (and `none` when the key is absent, indistinguishable from a
stored `None`). -/
abbrev Cache : Type := List (Int × Option (String × Option Unit))

/-- `self.prefetched_results.get(side)`. -/
def cacheGet (d : Cache) (k : Int) : Option (String × Option Unit) :=
  (d.lookup k).getD none

/-- `self.prefetched_results[side] = v`. -/
def cacheSet (d : Cache) (k : Int) (v : Option (String × Option Unit)) : Cache :=
  (k, v) :: d

/-- The engine state: the mutable fields of `OthelloGame` that the headless
core reads or writes (`screen`, `font`, `show_gifs`, the AI timing fields
and the HTTP session are external-collaborator state with no effect on
these fields in the headless configuration).  `rng` feeds `random.choice`
in `_finalize_active_stone`; `inflight` is ghost instrumentation listing the
background threads started by `_start_fetch_thread` whose results have not
yet been delivered. -/
structure GameState where
  board : Board
  current_side : Int
  active_stone : Option Int
  last_answer : String
  status_message : String
  maybe_flash_ticks : Int
  awaiting_api : Bool
  running : Bool
  pass_count : Int
  gif_animation : Option Unit
  prefetched_results : Cache
  fetching_for : Option Int
  rng : List Bool
  inflight : List Int
  deriving DecidableEq

/-- `OthelloGame._start_fetch_thread` (core.py:274-279): record the side and
launch a worker unless the recorded in-flight side is already `side`. -/
def start_fetch_thread (s : GameState) (side : Int) : GameState :=
  if s.fetching_for = some side then s
  else { s with fetching_for := some side, inflight := side :: s.inflight }

/-- `OthelloGame._prefetch_for_next_player` (core.py:339-348). -/
def prefetch_for_next_player (s : GameState) : GameState :=
  if s.running = false then s
  else
    let next := opponent s.current_side
    if (cacheGet s.prefetched_results next).isSome then s
    else if s.fetching_for = some next then s
    else start_fetch_thread s next

/-- `OthelloGame._finalize_active_stone` (core.py:314-337).  The event-queue
flush and `_show_turn_banner` are headless no-ops; with `ai_player = None`
the status message is always assigned. -/
def finalize_active_stone (s : GameState) (answer : String) (gif : Option Unit) : GameState :=
  let s1 := { s with last_answer := answer, gif_animation := gif }
  let s2 :=
    if answer = "maybe" then
      { s1 with active_stone := some s1.current_side, maybe_flash_ticks := 30,
                status_message := "MAYBE Flipping surrounding stones" }
    else if answer = "yes" then
      { s1 with active_stone := some YES_STONE, maybe_flash_ticks := 0,
                status_message := "YES stone ready" }
    else if answer = "no" then
      { s1 with active_stone := some NO_STONE, maybe_flash_ticks := 0,
                status_message := "NO stone ready" }
    else
      { s1 with active_stone := some (randomChoice2 s1.rng.headI), rng := s1.rng.tail,
                status_message := "Random stone ready" }
  prefetch_for_next_player s2

/-- `OthelloGame._prepare_active_stone` (core.py:252-272).  `if cached:` is
truthiness of the cached pair, i.e. `isSome`; the display flip is a UI
no-op. -/
def prepare_active_stone (s : GameState) : GameState :=
  if s.running = false then { s with active_stone := none }
  else
    let side := s.current_side
    match cacheGet s.prefetched_results side with
    | some (ans, gif) =>
      finalize_active_stone
        { s with prefetched_results := cacheSet s.prefetched_results side none,
                 awaiting_api := false }
        ans gif
    | none =>
      if s.fetching_for = some side then { s with awaiting_api := true }
      else start_fetch_thread { s with awaiting_api := true } side

/-- `OthelloGame._handle_pass` (core.py:187-198), with explicit fuel for the
tail recursion; the `pass_count >= 2` guard stops the recursion after at
most two increments, so any fuel `≥ 2` computes the fixpoint from a
nonnegative `pass_count` (proved below). -/
def handle_pass : Nat → GameState → GameState
  | 0, s => s
  | fuel + 1, s =>
    let s1 := { s with pass_count := s.pass_count + 1,
                       status_message := player_name s.current_side ++ " must pass" }
    if (2 : Int) ≤ s1.pass_count ∨ boardHasEmpty s1.board = false then
      { s1 with running := false }
    else
      let s2 := prepare_active_stone { s1 with current_side := opponent s1.current_side }
      if valid_moves s2.board s2.current_side = [] then handle_pass fuel s2 else s2

/-- `OthelloGame._advance_turn` (core.py:175-185). -/
def advance_turn (s : GameState) : GameState :=
  if boardHasEmpty s.board = false then
    { s with running := false, status_message := "Board is full" }
  else
    let s1 := prepare_active_stone { s with current_side := opponent s.current_side }
    if valid_moves s1.board s1.current_side = [] then handle_pass 3 s1 else s1

/-- `place_piece` lines 97-101 (core.py): set the cell, then — only when
the placed stone equals the owner of the turn — run `_flip_pieces` over the
8 directions. -/
def place_board_stage1 (s : GameState) (row col stone : Int) : Board :=
  if stone = s.current_side then
    DIRECTIONS.foldl (fun bb d => flip_pieces bb row col d.1 d.2 stone)
      (setCell s.board row col stone)
  else setCell s.board row col stone

/-- `place_piece` lines 107-109 (core.py): the maybe event applies after
the sandwich flips whenever `last_answer == "maybe"`. -/
def place_board (s : GameState) (row col stone : Int) : Board :=
  if s.last_answer = "maybe" then
    apply_maybe_event (place_board_stage1 s row col stone) row col stone
  else place_board_stage1 s row col stone

/-- `place_piece` lines 102-106 (core.py): the status text. -/
def place_msg (s : GameState) (stone : Int) : String :=
  if stone = s.current_side then
    player_name s.current_side ++ " placed " ++ player_name stone
  else
    player_name s.current_side ++ " placed " ++ player_name stone ++ " but nothing flipped"

/-- `OthelloGame.place_piece` (core.py:88-112).  The GIF popup returns
`True` headless.  When the checks pass but `active_stone` is `None`, the
numpy assignment `self.board[row, col] = None` raises; that is the `none`
result. -/
def place_piece (s : GameState) (row col : Int) : Option (Bool × GameState) :=
  if s.awaiting_api = true ∨ is_valid_move s.board row col s.current_side = false then
    some (false, s)
  else
    match s.active_stone with
    | none => none
    | some stone =>
      some (true, advance_turn
        { s with board := place_board s row col stone,
                 status_message := place_msg s stone,
                 pass_count := 0 })

/-- `OthelloGame.handle_api_result` (core.py:293-303). -/
def handle_api_result (s : GameState) (answer : String) (gif : Option Unit) (side : Int) :
    GameState :=
  if s.running = false then s
  else
    let s1 := if s.fetching_for = some side then { s with fetching_for := none } else s
    if s1.awaiting_api = true ∧ side = s1.current_side then
      finalize_active_stone { s1 with awaiting_api := false } answer gif
    else
      { s1 with prefetched_results := cacheSet s1.prefetched_results side (some (answer, gif)) }

/-- `OthelloGame._simulate_move` (core.py:402-432): the same placement logic
replayed inline on a scratch copy, returning `np.sum(temp_board == intended)`.
Note the source nests the maybe-radius loops inside `if placed == intended:`,
unlike `place_piece`. -/
def simulate_move (s : GameState) (row col : Int) : Option Nat :=
  let intended := s.current_side
  match s.active_stone with
  | none => none
  | some placed =>
    let t0 := setCell s.board row col placed
    let t1 :=
      if placed = intended then
        let opp := opponent intended
        let tf := DIRECTIONS.foldl
          (fun bb d =>
            let captured := scanRun bb d.1 d.2 opp (row + d.1) (col + d.2) 8
            let e := scanEnd bb d.1 d.2 opp (row + d.1) (col + d.2) 8
            if captured ≠ [] ∧ inB e.1 e.2 ∧ getCell bb e.1 e.2 = intended then
              captured.foldl (fun b2 p => setCell b2 p.1 p.2 intended) bb
            else bb)
          t0
        if s.last_answer = "maybe" then
          ([-1, 0, 1] : List Int).foldl
            (fun b1 dr =>
              ([-1, 0, 1] : List Int).foldl
                (fun b2 dc =>
                  if dr = 0 ∧ dc = 0 then b2
                  else
                    let r := row + dr
                    let c := col + dc
                    if inB r c ∧ getCell b2 r c = opponent intended then
                      setCell b2 r c intended
                    else b2)
                b1)
            tf
        else tf
      else t0
    some (countStones t1 intended)

/-- `OthelloGame.__init__` (core.py:35-62) in the headless configuration
(`ai_type=AI_NONE`, `show_gifs=False`, `screen=None`): the starting fields,
then the constructor's `_prepare_active_stone` call (the AI delay is a
no-op). -/
def initState (rng : List Bool) : GameState :=
  prepare_active_stone
    { board := initialBoard
      current_side := YES_STONE
      active_stone := some YES_STONE
      last_answer := "-"
      status_message := "Game start"
      maybe_flash_ticks := 0
      awaiting_api := false
      running := true
      pass_count := 0
      gif_animation := none
      prefetched_results := [(YES_STONE, none), (NO_STONE, none)]
      fetching_for := none
      rng := rng
      inflight := [] }

/-- The engine's externally driven transitions: a background fetch
completing for `side` (its result funnelled into `handle_api_result`,
either via the posted event or the drained fallback queue), and a placement
attempt (human click or AI move).  A delivery is only possible for a side
with a fetch actually in flight; the completing thread leaves `inflight`. -/
inductive Event where
  | deliver (answer : String) (gif : Option Unit) (side : Int)
  | place (row col : Int)

/-- One engine transition.  A crashing placement (`place_piece = none`) is
modelled as a stuck step. -/
def stepE (s : GameState) (e : Event) : GameState :=
  match e with
  | .deliver answer gif side =>
    if side ∈ s.inflight then
      handle_api_result { s with inflight := s.inflight.erase side } answer gif side
    else s
  | .place row col =>
    match place_piece s row col with
    | some (_, s') => s'
    | none => s

/-- The state after running a list of events from construction. -/
def runTrace (rng : List Bool) (es : List Event) : GameState :=
  es.foldl stepE (initState rng)

/-- Reachability by the engine's operations. -/
def Reachable (s : GameState) : Prop :=
  ∃ rng es, runTrace rng es = s

/-- The observable outcome of `self.http_session.get(API_URL, timeout=2)`
plus `response.json()`: an exception (timeout, connection error, JSON decode
error, non-string `answer` value — everything `except Exception` catches), a
non-2xx response, or a parsed body whose `answer` key is absent (`none`,
taking the `data.get` default) or a string. -/
inductive HttpAttempt where
  | exc
  | notOk
  | okJson (answer : Option String) (image : Option String)

/-- `random.choice(["yes", "no"])` with the drawn bit explicit. -/
def randomYesNo (b : Bool) : String :=
  if b then "yes" else "no"

/-- Python's `str.lower()` (character-wise lowercasing; kernel-reducible,
unlike `String.toLower`). -/
def strLower (s : String) : String :=
  ⟨s.data.map Char.toLower⟩

/-- `OthelloGame._fetch_api_answer` (core.py:361-372): on a 2xx response
with a parsed body, `data.get("answer", "yes").lower()` and
`data.get("image")`; on a non-2xx response or any exception, fall through
to `return random.choice(["yes", "no"]), None`. -/
def fetch_api_answer (att : HttpAttempt) (coin : Bool) : String × Option String :=
  match att with
  | .okJson answer image => (strLower (answer.getD "yes"), image)
  | .exc => (randomYesNo coin, none)
  | .notOk => (randomYesNo coin, none)

/-- The parameters of `load_gif_from_url` (gif_utils.py:16): exactly
`(url, enabled)`, no keyword-variadic parameter. -/
def load_gif_from_url_params : List String := ["url", "enabled"]

/-- The keyword arguments of the call
`load_gif_from_url(image_url, self.show_gifs, session=self.http_session)`
in `_async_fetch_active_stone` (core.py:284). -/
def async_fetch_gif_call_kwargs : List String := ["session"]

/-- Python call binding for a `def` without `**kwargs`: after `npos`
positional arguments bind the first `npos` parameters, every supplied
keyword must name one of the remaining parameters, else the call raises
`TypeError` before the callee's body runs. -/
def pythonCallAccepts (params kwargs : List String) (npos : Nat) : Bool :=
  kwargs.all fun k => k ∈ params.drop npos

/-- One run of the background worker `_async_fetch_active_stone`
(core.py:281-291): fetch the answer, call `load_gif_from_url`, then deliver
`(answer, gif, side)` by event post or — should posting raise
`pygame.error` — by the fallback queue; both paths deliver.  `some` is a
delivery, `none` is the worker dying with an unhandled exception first.
The `load_gif_from_url` call raises `TypeError` whenever its keyword
arguments are rejected, and it sits outside the worker's only `try`. -/
def async_fetch_active_stone (att : HttpAttempt) (coin : Bool) (side : Int) :
    Option (String × Option Unit × Int) :=
  let a := fetch_api_answer att coin
  if pythonCallAccepts load_gif_from_url_params async_fetch_gif_call_kwargs 2 then
    some (a.1, none, side)
  else
    none

/-- The failures enumerated by claim C3: timeout/exception, non-2xx
response, or a body missing the `answer` field. -/
def gatewayFailure : HttpAttempt → Prop
  | .exc => True
  | .notOk => True
  | .okJson a _ => a = none

/-- Claim C3 as stated: on any failure the gateway returns an outcome the
engine classifies as Unknown (an answer outside yes/no/maybe) and no image,
the random side substitution happening only in the engine. -/
def ClaimC3 : Prop :=
  ∀ att coin, gatewayFailure att →
    (fetch_api_answer att coin).1 ≠ "yes" ∧ (fetch_api_answer att coin).1 ≠ "no" ∧
      (fetch_api_answer att coin).1 ≠ "maybe" ∧ (fetch_api_answer att coin).2 = none

/-- The engine invariant: the pass counter stays in `{0, 1, 2}`, and while
the game runs an active stone always exists and a pending `"maybe"` answer
(once the wait is over) always designates the current side's own stone. -/
def Inv (s : GameState) : Prop :=
  0 ≤ s.pass_count ∧ s.pass_count ≤ 2 ∧
  (s.running = true →
    s.active_stone.isSome = true ∧
    (s.awaiting_api = false → s.last_answer = "maybe" →
      s.active_stone = some s.current_side))

/-- A board holding a single NO stone at (0,1): a run of NO bounded by an
Empty cell, the sandwich `is_valid_move` accepts for the stone argument
`EMPTY`. -/
def c10Board : Board := setCell emptyBoard 0 1 NO_STONE

/-- Claim C6 as stated: `place_piece` rejects, with no state change, while
`awaiting_api`, at a cell illegal for `current_side`, or after `running` is
false. -/
def ClaimC6 : Prop :=
  ∀ s row col,
    s.awaiting_api = true ∨ is_valid_move s.board row col s.current_side = false ∨
        s.running = false →
    place_piece s row col = some (false, s)

/-- A terminal (`running = false`) state in which the current side still
has a legal move and no fetch is awaited: the configuration the UI quit
paths can leave behind. -/
def c6State : GameState :=
  { board := initialBoard, current_side := YES_STONE, active_stone := some YES_STONE,
    last_answer := "-", status_message := "terminal", maybe_flash_ticks := 0,
    awaiting_api := false, running := false, pass_count := 2, gif_animation := none,
    prefetched_results := [(YES_STONE, none), (NO_STONE, none)], fetching_for := none,
    rng := [], inflight := [] }

/-- Claim C5 as stated: `_start_fetch_thread` deduplicates against the
recorded side, and across every interleaving of the engine's operations at
most one background fetch is ever in flight per side. -/
def ClaimC5 : Prop :=
  (∀ s side, s.fetching_for = some side → start_fetch_thread s side = s) ∧
  ∀ rng es side, ((runTrace rng es).inflight.count side) ≤ 1

/-- A full game prefix: six placements (answers yes, maybe, yes, yes, yes,
no) after which YES has no legal move while NO retains one; NO's sixth
placement therefore passes the turn back, `_prepare_active_stone` starts a
fresh YES fetch while NO's prefetch is still in flight (overwriting
`fetching_for`), and the final delivery finalizes NO's turn and prefetches
YES again — a second YES fetch while the first has not completed. -/
def c5Trace : List Event :=
  [.deliver "yes" none YES_STONE, .place 2 3,
   .deliver "maybe" none NO_STONE, .place 2 4,
   .deliver "yes" none YES_STONE, .place 2 5,
   .deliver "yes" none NO_STONE, .place 4 5,
   .deliver "yes" none YES_STONE, .place 1 2,
   .deliver "no" none NO_STONE, .place 3 5,
   .deliver "yes" none NO_STONE]

/-- A ready-to-place state with a pending maybe answer: YES's turn, YES's
own stone active, `last_answer = "maybe"`. -/
def c7State : GameState :=
  { board := initialBoard, current_side := YES_STONE, active_stone := some YES_STONE,
    last_answer := "maybe", status_message := "MAYBE Flipping surrounding stones",
    maybe_flash_ticks := 30, awaiting_api := false, running := true, pass_count := 0,
    gif_animation := none, prefetched_results := [(YES_STONE, none), (NO_STONE, none)],
    fetching_for := some NO_STONE, rng := [], inflight := [NO_STONE] }

/-- The state an accepted maybe-placement at (2,3) produces from
`c7State`. -/
def c7Placed : GameState :=
  ((place_piece c7State 2 3).getD (false, c7State)).2

/-- Claim C1 as stated: an accepted placement always performs the
per-direction sandwich flips for the placed stone, "including when
`active_stone` differs from `current_side`".  (Stated away from the maybe
rule, which is claim C7's subject.) -/
def ClaimC1 : Prop :=
  ∀ (s : GameState) (row col stone : Int) (s' : GameState),
    boardWF s.board → inB row col →
    place_piece s row col = some (true, s') →
    s.active_stone = some stone →
    s.last_answer ≠ "maybe" →
    ∀ r c, inB r c →
      getCell s'.board r c =
        if (r, c) = (row, col) then stone
        else if ∃ d ∈ DIRECTIONS,
            (r, c) ∈ dirFlips (setCell s.board row col stone) row col d.1 d.2 stone
          then stone
        else getCell s.board r c

/-- A board where (0,0) is a legal YES move (sandwich along row 0) while
the downward direction holds a NO sandwich: YES at (1,0) bounded by NO at
(2,0). -/
def c1Board : Board :=
  setCell (setCell (setCell (setCell emptyBoard 0 1 NO_STONE) 0 2 YES_STONE)
    1 0 YES_STONE) 2 0 NO_STONE

/-- YES's turn, but the remote answer was "no", so the NO stone is
active. -/
def c1State : GameState :=
  { board := c1Board, current_side := YES_STONE, active_stone := some NO_STONE,
    last_answer := "no", status_message := "NO stone ready", maybe_flash_ticks := 0,
    awaiting_api := false, running := true, pass_count := 0, gif_animation := none,
    prefetched_results := [(YES_STONE, none), (NO_STONE, none)],
    fetching_for := some NO_STONE, rng := [], inflight := [NO_STONE] }

/-- The state the accepted mismatched placement at (0,0) produces. -/
def c1Placed : GameState :=
  ((place_piece c1State 0 0).getD (false, c1State)).2

/-- A ready state for a matched placement: YES's turn with YES's stone
active after a "yes" answer. -/
def c1GoodState : GameState :=
  { board := initialBoard, current_side := YES_STONE, active_stone := some YES_STONE,
    last_answer := "yes", status_message := "YES stone ready", maybe_flash_ticks := 0,
    awaiting_api := false, running := true, pass_count := 0, gif_animation := none,
    prefetched_results := [(YES_STONE, none), (NO_STONE, none)],
    fetching_for := some NO_STONE, rng := [], inflight := [NO_STONE] }

/-- The state the accepted matched placement at (2,3) produces. -/
def c1GoodPlaced : GameState :=
  ((place_piece c1GoodState 2 3).getD (false, c1GoodState)).2

/-- A terminal state with `pass_count` already at 2 (for the witness). -/
def c8State : GameState :=
  { board := initialBoard, current_side := NO_STONE, active_stone := some NO_STONE,
    last_answer := "no", status_message := "NO must pass", maybe_flash_ticks := 0,
    awaiting_api := false, running := false, pass_count := 2, gif_animation := none,
    prefetched_results := [(YES_STONE, none), (NO_STONE, none)], fetching_for := none,
    rng := [], inflight := [] }

/-- A ready state and its accepted placement (for the witness). -/
def c8ReadyState : GameState :=
  { board := initialBoard, current_side := YES_STONE, active_stone := some YES_STONE,
    last_answer := "yes", status_message := "YES stone ready", maybe_flash_ticks := 0,
    awaiting_api := false, running := true, pass_count := 1, gif_animation := none,
    prefetched_results := [(YES_STONE, none), (NO_STONE, none)],
    fetching_for := some NO_STONE, rng := [], inflight := [NO_STONE] }

/-- The state `c8ReadyState`'s accepted placement at (2,3) produces. -/
def c8Placed : GameState :=
  ((place_piece c8ReadyState 2 3).getD (false, c8ReadyState)).2

/-! ### Verified properties -/

theorem inB_iff {r c : Int} : inB r c ↔ 0 ≤ r ∧ r < 8 ∧ 0 ≤ c ∧ c < 8 := Iff.rfl

example : is_valid_move initialBoard 2 3 YES_STONE = true := by decide

example : is_valid_move initialBoard 2 4 YES_STONE = false := by decide

example : valid_moves initialBoard YES_STONE = [(2, 3), (3, 2), (4, 5), (5, 4)] := by decide

example : countStones initialBoard YES_STONE = 2 := by decide

example : getCell (flip_pieces (setCell initialBoard 2 3 YES_STONE) 2 3 1 0 YES_STONE) 3 3
    = YES_STONE := by decide

theorem boardWF_initial : boardWF initialBoard := by decide

theorem getD_set_self {α : Type} (l : List α) (i : Nat) (x d : α) (h : i < l.length) :
    (l.set i x).getD i d = x := by
  rw [List.getD_eq_getElem?_getD, List.getElem?_set_self (by simpa using h)]
  rfl

theorem getD_set_ne {α : Type} (l : List α) (i j : Nat) (x d : α) (h : i ≠ j) :
    (l.set i x).getD j d = l.getD j d := by
  rw [List.getD_eq_getElem?_getD, List.getElem?_set_ne h, ← List.getD_eq_getElem?_getD]

theorem getD_mem_of_lt {α : Type} (l : List α) (i : Nat) (d : α) (h : i < l.length) :
    l.getD i d ∈ l := by
  rw [List.getD_eq_getElem?_getD, List.getElem?_eq_getElem h]
  exact List.getElem_mem h

theorem boardWF_setCell {b : Board} (hwf : boardWF b) {r c : Int} (hin : inB r c) (v : Int) :
    boardWF (setCell b r c v) := by
  obtain ⟨hr, hc1, hc2, hc3⟩ := inB_iff.mp hin
  refine ⟨by simpa [setCell] using hwf.1, ?_⟩
  intro row hrow
  rcases List.mem_or_eq_of_mem_set hrow with h | h
  · exact hwf.2 row h
  · subst h
    rw [List.length_set]
    have hlt : r.toNat < b.length := by rw [hwf.1]; omega
    exact hwf.2 _ (getD_mem_of_lt b r.toNat [] hlt)

theorem getCell_setCell_same {b : Board} (hwf : boardWF b) {r c : Int} (hin : inB r c)
    (v : Int) : getCell (setCell b r c v) r c = v := by
  obtain ⟨hr, hc1, hc2, hc3⟩ := inB_iff.mp hin
  have hrlt : r.toNat < b.length := by rw [hwf.1]; omega
  have hclt : c.toNat < (b.getD r.toNat []).length := by
    rw [hwf.2 _ (getD_mem_of_lt b r.toNat [] hrlt)]
    omega
  unfold getCell setCell
  rw [getD_set_self _ _ _ _ hrlt, getD_set_self _ _ _ _ hclt]

theorem getCell_setCell_ne {b : Board} (hwf : boardWF b) {r c r' c' : Int} (hin : inB r c)
    (hin' : inB r' c') (hne : (r', c') ≠ (r, c)) (v : Int) :
    getCell (setCell b r c v) r' c' = getCell b r' c' := by
  obtain ⟨hr, hc1, hc2, hc3⟩ := inB_iff.mp hin
  obtain ⟨hr', hc1', hc2', hc3'⟩ := inB_iff.mp hin'
  unfold getCell setCell
  by_cases hrow : r'.toNat = r.toNat
  · have hrr : r' = r := by omega
    have hcc : c' ≠ c := by
      intro hcc
      exact hne (by rw [hcc, hrr])
    have hccn : c'.toNat ≠ c.toNat := by omega
    have hrlt : r.toNat < b.length := by rw [hwf.1]; omega
    rw [hrow, getD_set_self _ _ _ _ hrlt, getD_set_ne _ _ _ _ _ (Ne.symm hccn)]
  · rw [getD_set_ne _ _ _ _ _ (fun hh => hrow hh.symm)]

theorem apply_maybe_event_eq_fold (b : Board) (row col placed : Int) :
    apply_maybe_event b row col placed = nbrOffsets.foldl (maybeStep row col placed) b := by
  simp only [apply_maybe_event, nbrOffsets, maybeStep, List.foldl]
  norm_num

theorem opponent_ne (x : Int) : opponent x ≠ x := by
  unfold opponent
  split_ifs with h
  · rw [h]; decide
  · exact fun hh => h hh.symm

theorem maybeStep_wf {bb : Board} (hwf : boardWF bb) (row col placed : Int) (o : Int × Int) :
    boardWF (maybeStep row col placed bb o) := by
  unfold maybeStep
  split_ifs with h
  · exact boardWF_setCell hwf h.1 placed
  · exact hwf

/-- A fold of `maybeStep` over pairwise-distinct offsets flips exactly the
in-bounds offset cells that held the opponent, reading the original
board. -/
theorem maybeFold_char (row col placed : Int) :
    ∀ (L : List (Int × Int)) (b : Board), boardWF b → L.Pairwise (· ≠ ·) →
      ∀ r c, inB r c →
        getCell (L.foldl (maybeStep row col placed) b) r c =
          if (∃ o ∈ L, r = row + o.1 ∧ c = col + o.2) ∧ getCell b r c = opponent placed
          then placed else getCell b r c := by
  intro L
  induction L with
  | nil =>
    intro b hwf hpw r c hin
    simp
  | cons o L ih =>
    intro b hwf hpw r c hin
    rw [List.foldl_cons]
    have hwf' : boardWF (maybeStep row col placed b o) := maybeStep_wf hwf row col placed o
    obtain ⟨hhead, hpw'⟩ := List.pairwise_cons.mp hpw
    rw [ih (maybeStep row col placed b o) hwf' hpw' r c hin]
    by_cases hcell : r = row + o.1 ∧ c = col + o.2
    · obtain ⟨hr1, hc1⟩ := hcell
      subst hr1
      subst hc1
      have hnot : ¬ ∃ o' ∈ L, row + o.1 = row + o'.1 ∧ col + o.2 = col + o'.2 := by
        rintro ⟨o', ho', h1, h2⟩
        exact hhead o' ho' (Prod.ext (by omega) (by omega))
      by_cases hv : getCell b (row + o.1) (col + o.2) = opponent placed
      · have hb' : maybeStep row col placed b o
            = setCell b (row + o.1) (col + o.2) placed := by
          unfold maybeStep
          rw [if_pos ⟨hin, hv⟩]
        rw [hb', getCell_setCell_same hwf hin placed]
        rw [if_neg (fun hh => opponent_ne placed (hh.2.symm))]
        rw [if_pos ⟨⟨o, List.mem_cons_self o L, rfl, rfl⟩, hv⟩]
      · have hb' : maybeStep row col placed b o = b := by
          unfold maybeStep
          rw [if_neg (fun hh => hv hh.2)]
        rw [hb']
        rw [if_neg (fun hh => hv hh.2), if_neg (fun hh => hv hh.2)]
    · have hbb : getCell (maybeStep row col placed b o) r c = getCell b r c := by
        unfold maybeStep
        split_ifs with h
        · exact getCell_setCell_ne hwf h.1 hin
            (fun hh => hcell ⟨congrArg Prod.fst hh, congrArg Prod.snd hh⟩) placed
        · rfl
      rw [hbb]
      have hiff : (∃ o' ∈ o :: L, r = row + o'.1 ∧ c = col + o'.2)
          ↔ (∃ o' ∈ L, r = row + o'.1 ∧ c = col + o'.2) := by
        constructor
        · rintro ⟨o', ho', hh⟩
          rcases List.mem_cons.mp ho' with rfl | hm
          · exact absurd hh hcell
          · exact ⟨o', hm, hh⟩
        · rintro ⟨o', hm, hh⟩
          exact ⟨o', List.mem_cons_of_mem _ hm, hh⟩
      exact (if_congr (and_congr_left' hiff) rfl rfl).symm

/-- The 8 offsets are exactly the Chebyshev-distance-1 displacements. -/
theorem chebOne_iff (row col r c : Int) :
    (∃ o ∈ nbrOffsets, r = row + o.1 ∧ c = col + o.2)
      ↔ max (r - row).natAbs (c - col).natAbs = 1 := by
  constructor
  · rintro ⟨o, ho, rfl, rfl⟩
    simp only [nbrOffsets, List.mem_cons, List.not_mem_nil, or_false] at ho
    rcases ho with rfl | rfl | rfl | rfl | rfl | rfl | rfl | rfl <;> (dsimp only; omega)
  · intro hmax
    have h1 : r - row = -1 ∨ r - row = 0 ∨ r - row = 1 := by omega
    have h2 : c - col = -1 ∨ c - col = 0 ∨ c - col = 1 := by omega
    have h3 : ¬ (r - row = 0 ∧ c - col = 0) := by omega
    refine ⟨(r - row, c - col), ?_, by omega, by omega⟩
    rcases h1 with h1 | h1 | h1 <;> rcases h2 with h2 | h2 | h2 <;>
      first
        | (rw [h1, h2]; decide)
        | exact absurd ⟨h1, h2⟩ h3

/-- Pointwise description of `_apply_maybe_event`: an in-bounds cell becomes
`placed` exactly when it lies at Chebyshev distance 1 from the placement and
held the opponent of the placed stone; every other in-bounds cell is
untouched. -/
theorem apply_maybe_event_char (b : Board) (row col placed : Int) (hwf : boardWF b) :
    ∀ r c, inB r c →
      getCell (apply_maybe_event b row col placed) r c =
        if max (r - row).natAbs (c - col).natAbs = 1 ∧ getCell b r c = opponent placed
        then placed else getCell b r c := by
  intro r c hin
  rw [apply_maybe_event_eq_fold,
    maybeFold_char row col placed nbrOffsets b hwf (by decide) r c hin]
  exact if_congr (and_congr_left' (chebOne_iff row col r c)) rfl rfl

theorem scanRun_mem {b : Board} {dr dc opp : Int} :
    ∀ (fuel : Nat) (r c : Int) (p : Int × Int), p ∈ scanRun b dr dc opp r c fuel →
      inB p.1 p.2 ∧ getCell b p.1 p.2 = opp := by
  intro fuel
  induction fuel with
  | zero => intro r c p hp; simp [scanRun] at hp
  | succ n ih =>
    intro r c p hp
    unfold scanRun at hp
    split_ifs at hp with h
    · rcases List.mem_cons.mp hp with rfl | hm
      · exact h
      · exact ih _ _ p hm
    · simp at hp

theorem boardWF_fold_set (stone : Int) :
    ∀ (L : List (Int × Int)) (b : Board), boardWF b → (∀ p ∈ L, inB p.1 p.2) →
      boardWF (L.foldl (fun bb p => setCell bb p.1 p.2 stone) b) := by
  intro L
  induction L with
  | nil => intro b hwf _; exact hwf
  | cons p L ih =>
    intro b hwf hall
    rw [List.foldl_cons]
    exact ih _ (boardWF_setCell hwf (hall p (List.mem_cons_self p L)) stone)
      (fun q hq => hall q (List.mem_cons_of_mem _ hq))

theorem boardWF_flip_pieces {b : Board} (hwf : boardWF b) (row col dr dc stone : Int) :
    boardWF (flip_pieces b row col dr dc stone) := by
  unfold flip_pieces
  refine boardWF_fold_set stone _ b hwf ?_
  intro p hp
  unfold dirFlips at hp
  dsimp only at hp
  split_ifs at hp with h
  · exact (scanRun_mem 8 _ _ p hp).1
  · simp at hp

theorem boardWF_flips_fold (row col stone : Int) :
    ∀ (ds : List (Int × Int)) (b : Board), boardWF b →
      boardWF (ds.foldl (fun bb d => flip_pieces bb row col d.1 d.2 stone) b) := by
  intro ds
  induction ds with
  | nil => intro b hwf; exact hwf
  | cons d ds ih =>
    intro b hwf
    rw [List.foldl_cons]
    exact ih _ (boardWF_flip_pieces hwf row col d.1 d.2 stone)

example : (initState []).awaiting_api = true := by decide

example : (initState []).inflight = [YES_STONE] := by decide

example : (runTrace [] [.deliver "yes" none YES_STONE]).active_stone = some YES_STONE := by
  decide

example : (runTrace [] [.deliver "yes" none YES_STONE]).inflight = [NO_STONE] := by decide

example :
    getCell (runTrace [] [.deliver "yes" none YES_STONE, .place 2 3]).board 3 3
      = YES_STONE := by decide

example :
    (runTrace [] [.deliver "yes" none YES_STONE, .place 2 3]).current_side = NO_STONE := by
  decide

/-- C2: every run of `_async_fetch_active_stone` dies with a `TypeError` at
the `load_gif_from_url(..., session=...)` call — `load_gif_from_url` only
declares `(url, enabled)` — so no run ever delivers its result: the fetched
answer is silently lost, contradicting the delivery contract the claim
states. -/
theorem C2_worker_never_delivers :
    ∀ att coin side, async_fetch_active_stone att coin side = none := by
  intro att coin side
  rfl

/-- C3 counterexample: on a timeout/exception with the coin drawn `true`
the gateway returns `("yes", none)` — a random *side* answer produced
inside the gateway, not an Unknown outcome. -/
theorem C3_failure_not_unknown_cex : ¬ ClaimC3 := by
  intro h
  have h2 := h .exc true trivial
  exact h2.1 rfl

/-- C3 amended: on a transport failure (exception or non-2xx) the gateway
itself substitutes `random.choice(["yes", "no"])` and drops the image; a
parsed body missing the `answer` field is not treated as a failure — it
defaults to `"yes"` and keeps the body's image; a present string answer is
lowercased and passed through. -/
theorem C3_gateway_failure_behaviour :
    ∀ coin img a,
      ((fetch_api_answer .exc coin).1 = "yes" ∨ (fetch_api_answer .exc coin).1 = "no") ∧
      (fetch_api_answer .exc coin).2 = none ∧
      fetch_api_answer .notOk coin = fetch_api_answer .exc coin ∧
      fetch_api_answer (.okJson none img) coin = ("yes", img) ∧
      fetch_api_answer (.okJson (some a) img) coin = (strLower a, img) := by
  intro coin img a
  refine ⟨?_, rfl, rfl, ?_, rfl⟩
  · cases coin
    · right; rfl
    · left; rfl
  · show (strLower (Option.getD none "yes"), img) = ("yes", img)
    rw [show strLower (Option.getD none "yes") = "yes" from by decide]

/-- `_prefetch_for_next_player` only touches the fetch bookkeeping
(`fetching_for`, the ghost `inflight`): every other engine field is left
unchanged. -/
theorem prefetch_fields (s : GameState) :
    (prefetch_for_next_player s).board = s.board ∧
    (prefetch_for_next_player s).current_side = s.current_side ∧
    (prefetch_for_next_player s).active_stone = s.active_stone ∧
    (prefetch_for_next_player s).last_answer = s.last_answer ∧
    (prefetch_for_next_player s).maybe_flash_ticks = s.maybe_flash_ticks ∧
    (prefetch_for_next_player s).awaiting_api = s.awaiting_api ∧
    (prefetch_for_next_player s).running = s.running ∧
    (prefetch_for_next_player s).pass_count = s.pass_count ∧
    (prefetch_for_next_player s).prefetched_results = s.prefetched_results ∧
    (prefetch_for_next_player s).rng = s.rng := by
  unfold prefetch_for_next_player start_fetch_thread
  dsimp only
  split_ifs <;> simp

theorem finalize_board (s : GameState) (a : String) (g : Option Unit) :
    (finalize_active_stone s a g).board = s.board := by
  unfold finalize_active_stone
  rw [(prefetch_fields _).1]
  split_ifs <;> rfl

theorem prepare_board (s : GameState) : (prepare_active_stone s).board = s.board := by
  unfold prepare_active_stone
  dsimp only
  by_cases h : s.running = false
  · rw [if_pos h]
  · rw [if_neg h]
    rcases hc : cacheGet s.prefetched_results s.current_side with _ | ⟨ans, gif⟩ <;>
      simp only [hc]
    · by_cases h2 : s.fetching_for = some s.current_side
      · rw [if_pos h2]
      · rw [if_neg h2]
        unfold start_fetch_thread
        split_ifs <;> rfl
    · rw [finalize_board]

theorem handle_pass_board : ∀ (fuel : Nat) (s : GameState),
    (handle_pass fuel s).board = s.board := by
  intro fuel
  induction fuel with
  | zero => intro s; rfl
  | succ n ih =>
    intro s
    unfold handle_pass
    dsimp only
    split_ifs with h1 h2
    · rfl
    · rw [ih, prepare_board]
    · rw [prepare_board]

theorem advance_board (s : GameState) : (advance_turn s).board = s.board := by
  unfold advance_turn
  dsimp only
  split_ifs with h1 h2
  · rfl
  · rw [handle_pass_board, prepare_board]
  · rw [prepare_board]

theorem scanRun_pos {b : Board} {dr dc opp : Int} :
    ∀ (fuel : Nat) (r c : Int) (p : Int × Int), p ∈ scanRun b dr dc opp r c fuel →
      ∃ k : Nat, k < fuel ∧ p = (r + k * dr, c + k * dc) := by
  intro fuel
  induction fuel with
  | zero => intro r c p hp; simp [scanRun] at hp
  | succ n ih =>
    intro r c p hp
    unfold scanRun at hp
    split_ifs at hp with h
    · rcases List.mem_cons.mp hp with rfl | hm
      · exact ⟨0, by omega, by simp⟩
      · obtain ⟨k, hk, hpk⟩ := ih _ _ p hm
        refine ⟨k + 1, by omega, ?_⟩
        rw [hpk]
        simp only [Prod.mk.injEq]
        constructor <;> (push_cast; ring)
    · simp at hp

theorem scanEnd_pos {b : Board} {dr dc opp : Int} :
    ∀ (fuel : Nat) (r c : Int), ∃ k : Nat, k ≤ fuel ∧
      scanEnd b dr dc opp r c fuel = (r + k * dr, c + k * dc) := by
  intro fuel
  induction fuel with
  | zero => intro r c; exact ⟨0, le_refl 0, by simp [scanEnd]⟩
  | succ n ih =>
    intro r c
    unfold scanEnd
    split_ifs with h
    · obtain ⟨k, hk, hpk⟩ := ih (r + dr) (c + dc)
      refine ⟨k + 1, by omega, ?_⟩
      rw [hpk]
      simp only [Prod.mk.injEq]
      constructor <;> (push_cast; ring)
    · exact ⟨0, by omega, by simp⟩

/-- Two boards agreeing on the in-bounds cells of a ray produce the same
scan. -/
theorem scan_congr {b b' : Board} {dr dc opp : Int} :
    ∀ (fuel : Nat) (r c : Int),
      (∀ k : Nat, k ≤ fuel → inB (r + k * dr) (c + k * dc) →
        getCell b (r + k * dr) (c + k * dc) = getCell b' (r + k * dr) (c + k * dc)) →
      scanRun b dr dc opp r c fuel = scanRun b' dr dc opp r c fuel ∧
        scanEnd b dr dc opp r c fuel = scanEnd b' dr dc opp r c fuel := by
  intro fuel
  induction fuel with
  | zero => intro r c _; exact ⟨rfl, rfl⟩
  | succ n ih =>
    intro r c hagree
    have h0 : inB r c → getCell b r c = getCell b' r c := by
      have := hagree 0 (by omega)
      simpa using this
    have hshift : ∀ k : Nat, k ≤ n → inB (r + dr + k * dr) (c + dc + k * dc) →
        getCell b (r + dr + k * dr) (c + dc + k * dc)
          = getCell b' (r + dr + k * dr) (c + dc + k * dc) := by
      intro k hk
      have harith1 : r + dr + k * dr = r + ((k : Int) + 1) * dr := by ring
      have harith2 : c + dc + k * dc = c + ((k : Int) + 1) * dc := by ring
      rw [harith1, harith2]
      have := hagree (k + 1) (by omega)
      push_cast at this ⊢
      exact this
    obtain ⟨ihr, ihe⟩ := ih (r + dr) (c + dc) hshift
    constructor
    · unfold scanRun
      by_cases hc : inB r c ∧ getCell b r c = opp
      · rw [if_pos hc, if_pos ⟨hc.1, by rw [← h0 hc.1]; exact hc.2⟩, ihr]
      · rw [if_neg hc, if_neg ?_]
        intro hc'
        exact hc ⟨hc'.1, by rw [h0 hc'.1]; exact hc'.2⟩
    · unfold scanEnd
      by_cases hc : inB r c ∧ getCell b r c = opp
      · rw [if_pos hc, if_pos ⟨hc.1, by rw [← h0 hc.1]; exact hc.2⟩, ihe]
      · rw [if_neg hc, if_neg ?_]
        intro hc'
        exact hc ⟨hc'.1, by rw [h0 hc'.1]; exact hc'.2⟩

/-- Two boards agreeing on the in-bounds ray cells (offsets 1 through 9)
produce the same per-direction flip set. -/
theorem dirFlips_congr {b b' : Board} {row col dr dc stone : Int}
    (hagree : ∀ k : Nat, 1 ≤ k → k ≤ 9 → inB (row + k * dr) (col + k * dc) →
      getCell b (row + k * dr) (col + k * dc) = getCell b' (row + k * dr) (col + k * dc)) :
    dirFlips b row col dr dc stone = dirFlips b' row col dr dc stone := by
  have hsh : ∀ k : Nat, k ≤ 8 → inB (row + dr + k * dr) (col + dc + k * dc) →
      getCell b (row + dr + k * dr) (col + dc + k * dc)
        = getCell b' (row + dr + k * dr) (col + dc + k * dc) := by
    intro k hk
    have harith1 : row + dr + k * dr = row + ((k : Int) + 1) * dr := by ring
    have harith2 : col + dc + k * dc = col + ((k : Int) + 1) * dc := by ring
    rw [harith1, harith2]
    have := hagree (k + 1) (by omega) (by omega)
    push_cast at this ⊢
    exact this
  obtain ⟨hrun, hend⟩ := scan_congr 8 (row + dr) (col + dc) hsh
  unfold dirFlips
  dsimp only
  rw [hrun, hend]
  obtain ⟨k, hk, hke⟩ := @scanEnd_pos b' dr dc (opponent stone) 8 (row + dr) (col + dc)
  rw [hke]
  dsimp only
  have harith1 : row + dr + (k : Int) * dr = row + ((k : Int) + 1) * dr := by ring
  have harith2 : col + dc + (k : Int) * dc = col + ((k : Int) + 1) * dc := by ring
  rw [harith1, harith2]
  refine if_congr (and_congr_right fun hin => ?_) rfl rfl
  have hg := hagree (k + 1) (by omega) (by omega)
  push_cast at hg
  rw [hg hin]

/-- Rays of two distinct directions from the same origin share no cell
(offsets start at 1). -/
theorem ray_disjoint {d1 d2 : Int × Int} (h1 : d1 ∈ DIRECTIONS) (h2 : d2 ∈ DIRECTIONS)
    (hne : d1 ≠ d2) (row col : Int) (k1 k2 : Nat) (hk1 : 1 ≤ k1) (hk2 : 1 ≤ k2) :
    (row + k1 * d1.1, col + k1 * d1.2) ≠ (row + k2 * d2.1, col + k2 * d2.2) := by
  intro heq
  rw [Prod.mk.injEq] at heq
  obtain ⟨e1, e2⟩ := heq
  simp only [DIRECTIONS, List.mem_cons, List.not_mem_nil, or_false] at h1 h2
  rcases h1 with rfl | rfl | rfl | rfl | rfl | rfl | rfl | rfl <;>
    rcases h2 with rfl | rfl | rfl | rfl | rfl | rfl | rfl | rfl <;>
    first
      | exact hne rfl
      | (dsimp only at e1 e2; omega)

/-- Each membership of a run determines its offset along the ray. -/
theorem dirFlips_pos {b : Board} {row col dr dc stone : Int} {p : Int × Int}
    (hp : p ∈ dirFlips b row col dr dc stone) :
    ∃ k : Nat, 1 ≤ k ∧ k ≤ 8 ∧ p = (row + k * dr, col + k * dc) := by
  unfold dirFlips at hp
  dsimp only at hp
  split_ifs at hp with h
  · obtain ⟨k, hk, hpk⟩ := scanRun_pos 8 (row + dr) (col + dc) p hp
    refine ⟨k + 1, by omega, by omega, ?_⟩
    rw [hpk]
    simp only [Prod.mk.injEq]
    constructor <;> (push_cast; ring)
  · simp at hp

theorem dirFlips_inB {b : Board} {row col dr dc stone : Int} {p : Int × Int}
    (hp : p ∈ dirFlips b row col dr dc stone) : inB p.1 p.2 := by
  unfold dirFlips at hp
  dsimp only at hp
  split_ifs at hp with h
  · exact (scanRun_mem 8 _ _ p hp).1
  · simp at hp

theorem scanRun_pairwise {b : Board} {dr dc opp : Int} (hd : ¬ (dr = 0 ∧ dc = 0)) :
    ∀ (fuel : Nat) (r c : Int), (scanRun b dr dc opp r c fuel).Pairwise (· ≠ ·) := by
  intro fuel
  induction fuel with
  | zero => intro r c; simp [scanRun]
  | succ n ih =>
    intro r c
    unfold scanRun
    split_ifs with h
    · rw [List.pairwise_cons]
      refine ⟨?_, ih _ _⟩
      intro p hp
      obtain ⟨k, hk, hpk⟩ := scanRun_pos n (r + dr) (c + dc) p hp
      rw [hpk]
      intro heq
      rw [Prod.mk.injEq] at heq
      obtain ⟨e1, e2⟩ := heq
      have hk1 : (k : Int) + 1 ≠ 0 := by positivity
      have hz1 : ((k : Int) + 1) * dr = 0 := by linear_combination -e1
      have hz2 : ((k : Int) + 1) * dc = 0 := by linear_combination -e2
      exact hd ⟨by rcases mul_eq_zero.mp hz1 with h | h; exacts [absurd h hk1, h],
        by rcases mul_eq_zero.mp hz2 with h | h; exacts [absurd h hk1, h]⟩
    · simp

theorem dirFlips_pairwise {b : Board} {row col stone : Int} {d : Int × Int}
    (hd : d ∈ DIRECTIONS) :
    (dirFlips b row col d.1 d.2 stone).Pairwise (· ≠ ·) := by
  have hdz : ¬ (d.1 = 0 ∧ d.2 = 0) := by
    simp only [DIRECTIONS, List.mem_cons, List.not_mem_nil, or_false] at hd
    rcases hd with rfl | rfl | rfl | rfl | rfl | rfl | rfl | rfl <;> simp
  unfold dirFlips
  dsimp only
  split_ifs with h
  · exact scanRun_pairwise hdz 8 _ _
  · simp

/-- Writing `stone` over pairwise-distinct in-bounds cells: members become
`stone`, everything else is untouched. -/
theorem setFold_char (stone : Int) :
    ∀ (L : List (Int × Int)) (b : Board), boardWF b → (∀ p ∈ L, inB p.1 p.2) →
      L.Pairwise (· ≠ ·) → ∀ r c, inB r c →
      getCell (L.foldl (fun bb p => setCell bb p.1 p.2 stone) b) r c =
        if (r, c) ∈ L then stone else getCell b r c := by
  intro L
  induction L with
  | nil => intro b hwf _ _ r c hin; simp
  | cons p L ih =>
    intro b hwf hall hpw r c hin
    rw [List.foldl_cons]
    obtain ⟨hhead, hpw'⟩ := List.pairwise_cons.mp hpw
    have hpin := hall p (List.mem_cons_self p L)
    have hwf' := boardWF_setCell hwf hpin stone
    rw [ih _ hwf' (fun q hq => hall q (List.mem_cons_of_mem _ hq)) hpw' r c hin]
    by_cases hrc : (r, c) = p
    · rw [Prod.ext_iff] at hrc
      obtain ⟨hr1, hc1⟩ := hrc
      dsimp only at hr1 hc1
      subst hr1
      subst hc1
      have hnot : (p.1, p.2) ∉ L := by
        intro hmem
        exact hhead _ hmem Prod.mk.eta.symm
      rw [if_neg hnot, if_pos (by rw [Prod.mk.eta]; exact List.mem_cons_self p L)]
      exact getCell_setCell_same hwf hpin stone
    · have hset : getCell (setCell b p.1 p.2 stone) r c = getCell b r c :=
        getCell_setCell_ne hwf hpin hin (by simpa using hrc) stone
      rw [hset]
      have hiff : (r, c) ∈ p :: L ↔ (r, c) ∈ L := by
        constructor
        · intro hm
          rcases List.mem_cons.mp hm with hm | hm
          · exact absurd hm hrc
          · exact hm
        · exact List.mem_cons_of_mem p
      exact (if_congr hiff rfl rfl).symm

/-- The sequential direction loop of `place_piece` behaves as 8 independent
sandwich flips: a fold of `_flip_pieces` over distinct directions, over any
board agreeing with the reference board `b1` on the unprocessed rays, flips
exactly the union of the per-direction flip sets computed on `b1`. -/
theorem flips_fold_char (row col stone : Int) (b1 : Board) :
    ∀ (ds : List (Int × Int)), ds.Nodup → (∀ d ∈ ds, d ∈ DIRECTIONS) →
      ∀ (bb : Board), boardWF bb →
      (∀ d ∈ ds, ∀ k : Nat, 1 ≤ k → k ≤ 9 → inB (row + k * d.1) (col + k * d.2) →
        getCell bb (row + k * d.1) (col + k * d.2)
          = getCell b1 (row + k * d.1) (col + k * d.2)) →
      ∀ r c, inB r c →
        getCell (ds.foldl (fun b2 d => flip_pieces b2 row col d.1 d.2 stone) bb) r c =
          if ∃ d ∈ ds, (r, c) ∈ dirFlips b1 row col d.1 d.2 stone then stone
          else getCell bb r c := by
  intro ds
  induction ds with
  | nil => intro _ _ bb hwf _ r c hin; simp
  | cons d ds ih =>
    intro hnd hdirs bb hwf hagree r c hin
    rw [List.foldl_cons]
    obtain ⟨hhead, hnd'⟩ := List.nodup_cons.mp hnd
    have hdmem : d ∈ DIRECTIONS := hdirs d (List.mem_cons_self d ds)
    -- the flip of `d` on `bb` is the flip of `d` on `b1`
    have hflipeq : dirFlips bb row col d.1 d.2 stone = dirFlips b1 row col d.1 d.2 stone :=
      dirFlips_congr (fun k h1 h9 hin' =>
        hagree d (List.mem_cons_self d ds) k h1 h9 hin')
    have hstep : flip_pieces bb row col d.1 d.2 stone
        = (dirFlips b1 row col d.1 d.2 stone).foldl
            (fun b2 p => setCell b2 p.1 p.2 stone) bb := by
      unfold flip_pieces
      rw [hflipeq]
    have hALLin : ∀ p ∈ dirFlips b1 row col d.1 d.2 stone, inB p.1 p.2 :=
      fun p hp => dirFlips_inB hp
    have hwf' : boardWF (flip_pieces bb row col d.1 d.2 stone) :=
      boardWF_flip_pieces hwf row col d.1 d.2 stone
    -- a cell of any unprocessed ray is untouched by the flip of `d`
    have huntouched : ∀ d' ∈ ds, ∀ k : Nat, 1 ≤ k → k ≤ 9 →
        inB (row + k * d'.1) (col + k * d'.2) →
        getCell (flip_pieces bb row col d.1 d.2 stone)
            (row + k * d'.1) (col + k * d'.2)
          = getCell bb (row + k * d'.1) (col + k * d'.2) := by
      intro d' hd' k h1 h9 hin'
      rw [hstep, setFold_char stone _ bb hwf hALLin (dirFlips_pairwise hdmem) _ _ hin']
      rw [if_neg ?_]
      intro hmem
      obtain ⟨k0, hk0a, hk0b, hk0e⟩ := dirFlips_pos hmem
      have hdne : d ≠ d' := fun hh => hhead (hh ▸ hd')
      exact ray_disjoint hdmem (hdirs d' (List.mem_cons_of_mem _ hd')) hdne row col
        k0 k hk0a h1 hk0e.symm
    rw [ih hnd' (fun d' hd' => hdirs d' (List.mem_cons_of_mem _ hd'))
      (flip_pieces bb row col d.1 d.2 stone) hwf'
      (fun d' hd' k h1 h9 hin' => (huntouched d' hd' k h1 h9 hin').trans
        (hagree d' (List.mem_cons_of_mem _ hd') k h1 h9 hin')) r c hin]
    have hbase : getCell (flip_pieces bb row col d.1 d.2 stone) r c
        = if (r, c) ∈ dirFlips b1 row col d.1 d.2 stone then stone
          else getCell bb r c := by
      rw [hstep, setFold_char stone _ bb hwf hALLin (dirFlips_pairwise hdmem) r c hin]
    by_cases hex : ∃ d' ∈ ds, (r, c) ∈ dirFlips b1 row col d'.1 d'.2 stone
    · obtain ⟨d', hd', hmem⟩ := hex
      rw [if_pos ⟨d', hd', hmem⟩, if_pos ⟨d', List.mem_cons_of_mem _ hd', hmem⟩]
    · rw [if_neg hex, hbase]
      by_cases hd0 : (r, c) ∈ dirFlips b1 row col d.1 d.2 stone
      · rw [if_pos hd0, if_pos ⟨d, List.mem_cons_self d ds, hd0⟩]
      · rw [if_neg hd0, if_neg ?_]
        rintro ⟨d', hd', hmem⟩
        rcases List.mem_cons.mp hd' with rfl | hm
        · exact hd0 hmem
        · exact hex ⟨d', hm, hmem⟩

theorem boardWF_stage1 {s : GameState} (hwf : boardWF s.board) {row col : Int}
    (hin : inB row col) (stone : Int) : boardWF (place_board_stage1 s row col stone) := by
  unfold place_board_stage1
  split_ifs with h
  · exact boardWF_flips_fold row col stone DIRECTIONS _ (boardWF_setCell hwf hin stone)
  · exact boardWF_setCell hwf hin stone

/-- Inversion of an accepted placement: the checks passed, an active stone
existed, and the result is the advanced state over the staged board. -/
theorem place_piece_accepted {s : GameState} {row col : Int} {s' : GameState}
    (hp : place_piece s row col = some (true, s')) :
    s.awaiting_api = false ∧ is_valid_move s.board row col s.current_side = true ∧
    ∃ stone, s.active_stone = some stone ∧
      s' = advance_turn
        { s with board := place_board s row col stone,
                 status_message := place_msg s stone,
                 pass_count := 0 } := by
  unfold place_piece at hp
  by_cases hcond :
      s.awaiting_api = true ∨ is_valid_move s.board row col s.current_side = false
  · rw [if_pos hcond] at hp
    simp at hp
  · rw [if_neg hcond] at hp
    push_neg at hcond
    obtain ⟨h1, h2⟩ := hcond
    refine ⟨by simpa using h1, by simpa using h2, ?_⟩
    rcases hact : s.active_stone with _ | stone
    · rw [hact] at hp
      simp at hp
    · rw [hact] at hp
      simp only [Option.some.injEq, Prod.mk.injEq, true_and] at hp
      exact ⟨stone, rfl, hp.symm⟩

/-- `_start_fetch_thread` only touches `fetching_for` and the ghost
`inflight`. -/
theorem start_fetch_fields (s : GameState) (side : Int) :
    (start_fetch_thread s side).board = s.board ∧
    (start_fetch_thread s side).current_side = s.current_side ∧
    (start_fetch_thread s side).active_stone = s.active_stone ∧
    (start_fetch_thread s side).last_answer = s.last_answer ∧
    (start_fetch_thread s side).awaiting_api = s.awaiting_api ∧
    (start_fetch_thread s side).running = s.running ∧
    (start_fetch_thread s side).pass_count = s.pass_count := by
  unfold start_fetch_thread
  split_ifs <;> simp

/-- The fields of `_finalize_active_stone` not involved in the answer
interpretation are preserved. -/
theorem finalize_fields (s : GameState) (a : String) (g : Option Unit) :
    (finalize_active_stone s a g).current_side = s.current_side ∧
    (finalize_active_stone s a g).awaiting_api = s.awaiting_api ∧
    (finalize_active_stone s a g).running = s.running ∧
    (finalize_active_stone s a g).pass_count = s.pass_count := by
  unfold finalize_active_stone
  refine ⟨?_, ?_, ?_, ?_⟩
  · rw [(prefetch_fields _).2.1]; split_ifs <;> rfl
  · rw [(prefetch_fields _).2.2.2.2.2.1]; split_ifs <;> rfl
  · rw [(prefetch_fields _).2.2.2.2.2.2.1]; split_ifs <;> rfl
  · rw [(prefetch_fields _).2.2.2.2.2.2.2.1]; split_ifs <;> rfl

/-- `_prepare_active_stone` preserves `pass_count` and `running`. -/
theorem prepare_fields (s : GameState) :
    (prepare_active_stone s).pass_count = s.pass_count ∧
    (prepare_active_stone s).running = s.running := by
  unfold prepare_active_stone
  dsimp only
  constructor
  all_goals
    by_cases h : s.running = false
  · rw [if_pos h]
  · rw [if_neg h]
    rcases hc : cacheGet s.prefetched_results s.current_side with _ | ⟨ans, gif⟩ <;>
      simp only [hc]
    · by_cases h2 : s.fetching_for = some s.current_side
      · rw [if_pos h2]
      · rw [if_neg h2, (start_fetch_fields _ _).2.2.2.2.2.2]
    · rw [(finalize_fields _ _ _).2.2.2]
  · rw [if_pos h]
  · rw [if_neg h]
    rcases hc : cacheGet s.prefetched_results s.current_side with _ | ⟨ans, gif⟩ <;>
      simp only [hc]
    · by_cases h2 : s.fetching_for = some s.current_side
      · rw [if_pos h2]
      · rw [if_neg h2, (start_fetch_fields _ _).2.2.2.2.2.1]
    · rw [(finalize_fields _ _ _).2.2.1]

/-- The state fields `_finalize_active_stone` interprets the answer into:
`active_stone`, the maybe flag, and the recorded `last_answer`. -/
theorem finalize_core (s : GameState) (answer : String) (gif : Option Unit) :
    (finalize_active_stone s answer gif).active_stone =
      (if answer = "maybe" then some s.current_side
       else if answer = "yes" then some YES_STONE
       else if answer = "no" then some NO_STONE
       else some (randomChoice2 s.rng.headI)) ∧
    (finalize_active_stone s answer gif).maybe_flash_ticks =
      (if answer = "maybe" then 30
       else if answer = "yes" then 0
       else if answer = "no" then 0
       else s.maybe_flash_ticks) ∧
    (finalize_active_stone s answer gif).last_answer = answer := by
  unfold finalize_active_stone
  refine ⟨?_, ?_, ?_⟩
  · rw [(prefetch_fields _).2.2.1]
    split_ifs <;> rfl
  · rw [(prefetch_fields _).2.2.2.2.1]
    split_ifs <;> rfl
  · rw [(prefetch_fields _).2.2.2.1]
    split_ifs <;> rfl

/-- C4: `_finalize_active_stone` maps `"yes"` to `YES_STONE` and `"no"` to
`NO_STONE` regardless of whose turn it is, `"maybe"` to the current side's
own stone while flagging the maybe event (`maybe_flash_ticks = 30`), and
any other answer to `random.choice([YES_STONE, NO_STONE])`. -/
theorem C4_finalize_active_stone_mapping :
    ∀ s answer gif,
      (answer = "yes" →
        (finalize_active_stone s answer gif).active_stone = some YES_STONE ∧
        (finalize_active_stone s answer gif).maybe_flash_ticks = 0) ∧
      (answer = "no" →
        (finalize_active_stone s answer gif).active_stone = some NO_STONE ∧
        (finalize_active_stone s answer gif).maybe_flash_ticks = 0) ∧
      (answer = "maybe" →
        (finalize_active_stone s answer gif).active_stone = some s.current_side ∧
        (finalize_active_stone s answer gif).maybe_flash_ticks = 30) ∧
      (answer ≠ "yes" → answer ≠ "no" → answer ≠ "maybe" →
        (finalize_active_stone s answer gif).active_stone
            = some (randomChoice2 s.rng.headI) ∧
        (randomChoice2 s.rng.headI = YES_STONE ∨ randomChoice2 s.rng.headI = NO_STONE)) ∧
      (finalize_active_stone s answer gif).last_answer = answer := by
  intro s answer gif
  obtain ⟨ha, hf, hl⟩ := finalize_core s answer gif
  refine ⟨?_, ?_, ?_, ?_, hl⟩
  · rintro rfl
    rw [ha, hf]
    exact ⟨by rfl, by rfl⟩
  · rintro rfl
    rw [ha, hf]
    exact ⟨by rfl, by rfl⟩
  · rintro rfl
    rw [ha, hf]
    exact ⟨rfl, rfl⟩
  · intro hy hn hm
    rw [ha]
    refine ⟨by simp [hy, hn, hm], ?_⟩
    by_cases hb : s.rng.headI <;> simp [randomChoice2, hb]

/-- Witness for C4 at the answer `"maybe"` delivered to the fresh engine. -/
theorem C4_finalize_active_stone_mapping_witness :
    (finalize_active_stone (initState []) "maybe" none).active_stone
        = some (initState []).current_side ∧
    (finalize_active_stone (initState []) "maybe" none).maybe_flash_ticks = 30 :=
  (C4_finalize_active_stone_mapping (initState []) "maybe" none).2.2.1 rfl

theorem Inv_finalize (s : GameState) (a : String) (g : Option Unit)
    (h0 : 0 ≤ s.pass_count) (h2 : s.pass_count ≤ 2) :
    Inv (finalize_active_stone s a g) := by
  obtain ⟨hcur, haw, hrun, hpass⟩ := finalize_fields s a g
  obtain ⟨hact, hflash, hlast⟩ := finalize_core s a g
  refine ⟨by rw [hpass]; exact h0, by rw [hpass]; exact h2, fun hr => ⟨?_, ?_⟩⟩
  · rw [hact]
    split_ifs <;> rfl
  · intro haw' hlm
    rw [hlast] at hlm
    rw [hact, hcur, if_pos hlm]

theorem Inv_prepare (s : GameState) (h0 : 0 ≤ s.pass_count) (h2 : s.pass_count ≤ 2)
    (hsome : s.running = true → s.active_stone.isSome = true) :
    Inv (prepare_active_stone s) := by
  unfold prepare_active_stone
  dsimp only
  by_cases hr : s.running = false
  · rw [if_pos hr]
    refine ⟨h0, h2, fun hrr => ?_⟩
    rw [show ({ s with active_stone := none } : GameState).running = s.running from rfl,
      hr] at hrr
    exact absurd hrr (by simp)
  · rw [if_neg hr]
    rcases hc : cacheGet s.prefetched_results s.current_side with _ | ⟨ans, gif⟩ <;>
      simp only [hc]
    · by_cases hf : s.fetching_for = some s.current_side
      · rw [if_pos hf]
        exact ⟨h0, h2, fun hrr => ⟨hsome hrr, fun haw _ => absurd haw (by simp)⟩⟩
      · rw [if_neg hf]
        obtain ⟨-, -, hact, -, haw, hrun, hpass⟩ :=
          start_fetch_fields { s with awaiting_api := true } s.current_side
        refine ⟨by rw [hpass]; exact h0, by rw [hpass]; exact h2, fun hrr => ?_⟩
        rw [hrun] at hrr
        refine ⟨by rw [hact]; exact hsome hrr, fun haw' _ => ?_⟩
        rw [haw] at haw'
        exact absurd haw' (by simp)
    · exact Inv_finalize _ ans gif h0 h2

theorem Inv_handle_pass : ∀ (fuel : Nat) (s : GameState), 0 ≤ s.pass_count →
    s.pass_count ≤ 1 → (s.running = true → s.active_stone.isSome = true) →
    (2 : Int) - s.pass_count ≤ fuel → Inv (handle_pass fuel s) := by
  intro fuel
  induction fuel with
  | zero =>
    intro s h0 h1 hsome hfuel
    exfalso
    push_cast at hfuel
    omega
  | succ n ih =>
    intro s h0 h1 hsome hfuel
    unfold handle_pass
    dsimp only
    by_cases hterm : (2 : Int) ≤ s.pass_count + 1 ∨ boardHasEmpty s.board = false
    · rw [if_pos hterm]
      exact ⟨by show (0 : Int) ≤ s.pass_count + 1; omega,
        by show s.pass_count + 1 ≤ 2; omega,
        fun hrr => (Bool.false_ne_true hrr).elim⟩
    · rw [if_neg hterm]
      push_neg at hterm
      obtain ⟨hlt, hemp⟩ := hterm
      have hp0 : s.pass_count = 0 := by omega
      split
      · refine ih _ ?_ ?_ ?_ ?_
        · rw [(prepare_fields _).1]
          show (0 : Int) ≤ s.pass_count + 1
          omega
        · rw [(prepare_fields _).1]
          show s.pass_count + 1 ≤ 1
          omega
        · intro hrr
          have hI := Inv_prepare
            { s with pass_count := s.pass_count + 1,
                     status_message := player_name s.current_side ++ " must pass",
                     current_side := opponent s.current_side }
            (by show (0 : Int) ≤ s.pass_count + 1; omega)
            (by show s.pass_count + 1 ≤ 2; omega)
            (fun h => hsome h)
          exact (hI.2.2 hrr).1
        · rw [(prepare_fields _).1]
          show (2 : Int) - (s.pass_count + 1) ≤ (n : Int)
          push_cast at hfuel
          omega
      · exact Inv_prepare _
          (by show (0 : Int) ≤ s.pass_count + 1; omega)
          (by show s.pass_count + 1 ≤ 2; omega)
          (fun h => hsome h)

theorem Inv_advance (s : GameState) (h0 : 0 ≤ s.pass_count) (h1 : s.pass_count ≤ 1)
    (hsome : s.running = true → s.active_stone.isSome = true) : Inv (advance_turn s) := by
  unfold advance_turn
  dsimp only
  by_cases hfull : boardHasEmpty s.board = false
  · rw [if_pos hfull]
    exact ⟨h0, by show s.pass_count ≤ 2; omega, fun hrr => (Bool.false_ne_true hrr).elim⟩
  · rw [if_neg hfull]
    split
    · refine Inv_handle_pass 3 _ ?_ ?_ ?_ ?_
      · rw [(prepare_fields _).1]
        exact h0
      · rw [(prepare_fields _).1]
        exact h1
      · intro hrr
        have hI := Inv_prepare { s with current_side := opponent s.current_side }
          h0 (by show s.pass_count ≤ 2; omega) (fun h => hsome h)
        exact (hI.2.2 hrr).1
      · rw [(prepare_fields _).1]
        show (2 : Int) - s.pass_count ≤ (3 : Nat)
        push_cast
        omega
    · exact Inv_prepare _ h0 (by show s.pass_count ≤ 2; omega) (fun h => hsome h)

theorem Inv_handle_api (s : GameState) (hI : Inv s) (a : String) (g : Option Unit)
    (side : Int) : Inv (handle_api_result s a g side) := by
  unfold handle_api_result
  dsimp only
  by_cases hr : s.running = false
  · rw [if_pos hr]
    exact hI
  · rw [if_neg hr]
    by_cases hf : s.fetching_for = some side <;> [rw [if_pos hf]; rw [if_neg hf]] <;>
      · split
        · exact Inv_finalize _ a g hI.1 hI.2.1
        · exact ⟨hI.1, hI.2.1, hI.2.2⟩

theorem Inv_stepE (s : GameState) (hI : Inv s) (e : Event) : Inv (stepE s e) := by
  cases e with
  | deliver a g side =>
    show Inv (if side ∈ s.inflight then
      handle_api_result { s with inflight := s.inflight.erase side } a g side else s)
    by_cases hm : side ∈ s.inflight
    · rw [if_pos hm]
      exact Inv_handle_api { s with inflight := s.inflight.erase side }
        ⟨hI.1, hI.2.1, hI.2.2⟩ a g side
    · rw [if_neg hm]
      exact hI
  | place row col =>
    show Inv (match place_piece s row col with
      | some (_, s') => s'
      | none => s)
    rcases hp : place_piece s row col with _ | ⟨flag, s'⟩
    · exact hI
    · show Inv s'
      unfold place_piece at hp
      by_cases hcond :
          s.awaiting_api = true ∨ is_valid_move s.board row col s.current_side = false
      · rw [if_pos hcond] at hp
        have h2 := Option.some.inj hp
        have h3 : s = s' := congrArg Prod.snd h2
        rw [← h3]
        exact hI
      · rw [if_neg hcond] at hp
        rcases hact : s.active_stone with _ | stone
        · rw [hact] at hp
          simp at hp
        · rw [hact] at hp
          dsimp only at hp
          have h2 := Option.some.inj hp
          injection h2 with hf hs
          rw [← hs]
          exact Inv_advance _ (by show (0 : Int) ≤ 0; omega) (by show (0 : Int) ≤ 1; omega)
            (fun _ => rfl)

theorem Inv_init (rng : List Bool) : Inv (initState rng) := by
  unfold initState
  exact Inv_prepare _ (by show (0 : Int) ≤ 0; omega) (by show (0 : Int) ≤ 2; omega)
    (fun _ => rfl)

theorem Inv_runTrace (rng : List Bool) (es : List Event) : Inv (runTrace rng es) := by
  unfold runTrace
  have key : ∀ (l : List Event) (s : GameState), Inv s → Inv (l.foldl stepE s) := by
    intro l
    induction l with
    | nil => intro s h; exact h
    | cons e l ih =>
      intro s h
      rw [List.foldl_cons]
      exact ih _ (Inv_stepE s h e)
  exact key es _ (Inv_init rng)

/-- C10: `_opponent` is the symmetric involution on the two sides but is
total, sending every non-`NO_STONE` value — `EMPTY` included — to
`NO_STONE`; consequently `is_valid_move` accepts `EMPTY` as its stone and
answers `true` on a board where a NO run is bounded by an Empty cell. -/
theorem C10_opponent_total :
    (∀ x, x ≠ NO_STONE → opponent x = NO_STONE) ∧
    opponent YES_STONE = NO_STONE ∧ opponent NO_STONE = YES_STONE ∧
    opponent EMPTY = NO_STONE ∧
    is_valid_move c10Board 0 0 EMPTY = true := by
  refine ⟨?_, rfl, rfl, rfl, by decide⟩
  intro x hx
  unfold opponent
  simp [hx]

/-- Witness for C10 at the concrete non-side value `7`. -/
theorem C10_opponent_total_witness : opponent 7 = NO_STONE :=
  C10_opponent_total.1 7 (by decide)

/-- C6 counterexample: `place_piece` never consults `running`; in the
terminal state above the placement at (2,3) is accepted (returns `True`),
not rejected. -/
theorem C6_terminal_not_guarded_cex : ¬ ClaimC6 := by
  intro h
  have h2 := h c6State 2 3 (Or.inr (Or.inr rfl))
  have h3 : (place_piece c6State 2 3).map (fun x => x.1) = some false := by rw [h2]; rfl
  have h4 : (place_piece c6State 2 3).map (fun x => x.1) = some true := by decide
  have h5 := h3.symm.trans h4
  simp at h5

/-- C6 amended: a placement while `awaiting_api` or at a cell that is not a
legal move for `current_side` (legality always evaluated for
`current_side`) returns `False` and leaves the state untouched; `running`
is not consulted, so no terminal-state guard exists. -/
theorem C6_rejection_no_mutation :
    ∀ s row col,
      s.awaiting_api = true ∨ is_valid_move s.board row col s.current_side = false →
      place_piece s row col = some (false, s) := by
  intro s row col h
  unfold place_piece
  rcases h with h | h <;> simp [h]

/-- Witness for C6 at the freshly constructed state, which awaits its first
answer. -/
theorem C6_rejection_no_mutation_witness :
    place_piece (initState []) 2 3 = some (false, initState []) :=
  C6_rejection_no_mutation (initState []) 2 3 (Or.inl (by decide))

set_option maxRecDepth 100000 in
/-- C5 counterexample: after the reachable interleaving `c5Trace`, two YES
fetches are in flight at once — the single scalar `fetching_for` loses
NO's in-flight prefetch when a pass restarts YES's fetch, and the next
finalize prefetches YES again. -/
theorem C5_single_flight_cex : ¬ ClaimC5 := by
  intro h
  have h2 := h.2 [] c5Trace YES_STONE
  have h3 : ((runTrace [] c5Trace).inflight.count YES_STONE) = 2 := by decide
  rw [h3] at h2
  omega

/-- C5 amended: the only single-flight guarantee the engine gives is the
one `_start_fetch_thread` checks itself — a request for the side currently
recorded in `fetching_for` launches no second thread and changes nothing.
(The per-side invariant across interleavings fails: see the
counterexample.) -/
theorem C5_start_fetch_dedup :
    ∀ s side, s.fetching_for = some side → start_fetch_thread s side = s := by
  intro s side h
  unfold start_fetch_thread
  simp [h]

/-- Witness for C5: the fresh engine records YES's own first fetch, and a
duplicate request for YES is a no-op. -/
theorem C5_start_fetch_dedup_witness :
    start_fetch_thread (initState []) YES_STONE = initState [] :=
  C5_start_fetch_dedup (initState []) YES_STONE (by decide)

/-- C7: when an accepted placement happens with `last_answer = "maybe"`,
the final board is the post-sandwich board `place_board_stage1` with every
in-bounds Chebyshev-distance-1 neighbor holding the opponent of the placed
stone flipped to the placed stone; every other in-bounds cell — farther
cells, empty neighbors, same-stone neighbors — is exactly the post-sandwich
value. -/
theorem C7_maybe_radius_flips :
    ∀ (s : GameState) (row col stone : Int) (s' : GameState),
      boardWF s.board → inB row col →
      place_piece s row col = some (true, s') →
      s.active_stone = some stone →
      s.last_answer = "maybe" →
      ∀ r c, inB r c →
        getCell s'.board r c =
          if max (r - row).natAbs (c - col).natAbs = 1 ∧
              getCell (place_board_stage1 s row col stone) r c = opponent stone
          then stone
          else getCell (place_board_stage1 s row col stone) r c := by
  intro s row col stone s' hwf hin hp hact hmay r c hrc
  obtain ⟨-, -, stone', hact', hs'⟩ := place_piece_accepted hp
  rw [hact] at hact'
  obtain rfl : stone = stone' := Option.some.inj hact'
  rw [hs', advance_board]
  show getCell (place_board s row col stone) r c = _
  unfold place_board
  rw [if_pos hmay]
  exact apply_maybe_event_char _ row col stone (boardWF_stage1 hwf hin stone) r c hrc

/-- Pointwise description of the owner-stone placement stage: the target
cell becomes `stone`; a cell in some direction's flip set — computed
per-direction on the board with the stone set, exactly the non-empty,
properly bounded opponent run — becomes `stone`; everything else keeps its
pre-placement value. -/
theorem stage1_char {s : GameState} (hwf : boardWF s.board) {row col : Int}
    (hin : inB row col) (stone : Int) (hmatch : stone = s.current_side) :
    ∀ r c, inB r c →
      getCell (place_board_stage1 s row col stone) r c =
        if (r, c) = (row, col) then stone
        else if ∃ d ∈ DIRECTIONS,
            (r, c) ∈ dirFlips (setCell s.board row col stone) row col d.1 d.2 stone
          then stone
        else getCell s.board r c := by
  intro r c hrc
  unfold place_board_stage1
  rw [if_pos hmatch]
  have hwf1 : boardWF (setCell s.board row col stone) := boardWF_setCell hwf hin stone
  rw [flips_fold_char row col stone (setCell s.board row col stone) DIRECTIONS (by decide)
    (fun d hd => hd) (setCell s.board row col stone) hwf1
    (fun d hd k h1 h9 hin' => rfl) r c hrc]
  by_cases hc0 : (r, c) = (row, col)
  · have hnot : ¬ ∃ d ∈ DIRECTIONS,
        (r, c) ∈ dirFlips (setCell s.board row col stone) row col d.1 d.2 stone := by
      rintro ⟨d, hd, hmem⟩
      obtain ⟨k, hk1, hk8, hke⟩ := dirFlips_pos hmem
      rw [hc0, Prod.mk.injEq] at hke
      obtain ⟨e1, e2⟩ := hke
      have hdz : ¬ (d.1 = 0 ∧ d.2 = 0) := by
        simp only [DIRECTIONS, List.mem_cons, List.not_mem_nil, or_false] at hd
        rcases hd with rfl | rfl | rfl | rfl | rfl | rfl | rfl | rfl <;> simp
      have hknz : (k : Int) ≠ 0 := by omega
      have hz1 : (k : Int) * d.1 = 0 := by linarith
      have hz2 : (k : Int) * d.2 = 0 := by linarith
      exact hdz ⟨by rcases mul_eq_zero.mp hz1 with h | h; exacts [absurd h hknz, h],
        by rcases mul_eq_zero.mp hz2 with h | h; exacts [absurd h hknz, h]⟩
    rw [if_neg hnot, if_pos hc0]
    rw [Prod.mk.injEq] at hc0
    obtain ⟨hr1, hc1⟩ := hc0
    rw [hr1, hc1]
    exact getCell_setCell_same hwf hin stone
  · rw [if_neg hc0]
    by_cases hex : ∃ d ∈ DIRECTIONS,
        (r, c) ∈ dirFlips (setCell s.board row col stone) row col d.1 d.2 stone
    · rw [if_pos hex, if_pos hex]
    · rw [if_neg hex, if_neg hex]
      exact getCell_setCell_ne hwf hin hrc (by simpa using hc0) stone

set_option maxRecDepth 100000 in
/-- C1 counterexample: in `c1State` the placement at (0,0) is accepted
(legality holds for YES), places the NO stone, and the NO-sandwich in the
downward direction is properly bounded — yet the code flips nothing because
the placed stone differs from the turn owner: (1,0) stays YES where the
claim demands NO. -/
theorem C1_mismatch_no_flip_cex : ¬ ClaimC1 := by
  intro h
  have hp : place_piece c1State 0 0 = some (true, c1Placed) := by decide
  have h2 := h c1State 0 0 NO_STONE c1Placed (by decide) (by decide) hp (by decide)
    (by decide) 1 0 (by decide)
  exact absurd h2 (by decide)

/-- C1 amended: the placement sets the cell, and the per-direction sandwich
flips — recomputed per direction for the placed stone, each direction
flipping exactly its non-empty properly bounded opponent run — happen only
when the placed stone equals `current_side`; when they differ, no direction
is flipped and the board is the original with only the target cell set. -/
theorem C1_sandwich_flips :
    ∀ (s : GameState) (row col stone : Int) (s' : GameState),
      boardWF s.board → inB row col →
      place_piece s row col = some (true, s') →
      s.active_stone = some stone →
      s.last_answer ≠ "maybe" →
      (stone = s.current_side →
        ∀ r c, inB r c →
          getCell s'.board r c =
            if (r, c) = (row, col) then stone
            else if ∃ d ∈ DIRECTIONS,
                (r, c) ∈ dirFlips (setCell s.board row col stone) row col d.1 d.2 stone
              then stone
            else getCell s.board r c) ∧
      (stone ≠ s.current_side →
        ∀ r c, inB r c →
          getCell s'.board r c = getCell (setCell s.board row col stone) r c) := by
  intro s row col stone s' hwf hin hp hact hnm
  obtain ⟨-, -, stone', hact', hs'⟩ := place_piece_accepted hp
  rw [hact] at hact'
  obtain rfl : stone = stone' := Option.some.inj hact'
  have hb2 : s'.board = place_board_stage1 s row col stone := by
    rw [hs', advance_board]
    show place_board s row col stone = _
    unfold place_board
    rw [if_neg hnm]
  constructor
  · intro hmatch r c hrc
    rw [hb2]
    exact stage1_char hwf hin stone hmatch r c hrc
  · intro hmis r c hrc
    rw [hb2]
    unfold place_board_stage1
    rw [if_neg hmis]

set_option maxRecDepth 100000 in
/-- Witness for C1 at the matched placement (2,3) from `c1GoodState`, read
at the flipped cell (3,3). -/
theorem C1_sandwich_flips_witness :
    getCell c1GoodPlaced.board 3 3 =
      if ((3 : Int), (3 : Int)) = (2, 3) then YES_STONE
      else if ∃ d ∈ DIRECTIONS, ((3 : Int), (3 : Int)) ∈
          dirFlips (setCell c1GoodState.board 2 3 YES_STONE) 2 3 d.1 d.2 YES_STONE
        then YES_STONE
      else getCell c1GoodState.board 3 3 :=
  (C1_sandwich_flips c1GoodState 2 3 YES_STONE c1GoodPlaced (by decide) (by decide)
    (by decide) (by decide) (by decide)).1 rfl 3 3 (by decide)

/-- A single pass step that reaches the guard (`pass_count` becomes `≥ 2`,
or the board is full) increments `pass_count` by exactly 1, sets the pass
status, stops the game, and recurses no further — for any fuel. -/
theorem handle_pass_step (s : GameState) (fuel : Nat)
    (h : (2 : Int) ≤ s.pass_count + 1 ∨ boardHasEmpty s.board = false) :
    handle_pass (fuel + 1) s =
      { s with pass_count := s.pass_count + 1,
               status_message := player_name s.current_side ++ " must pass",
               running := false } := by
  unfold handle_pass
  dsimp only
  rw [if_pos (by exact h)]

/-- Fuel 2 computes the pass chain exactly: from a nonnegative counter the
recursion stops after at most two pass steps. -/
theorem handle_pass_fuel_stable (m : Nat) (s : GameState) (hp : 0 ≤ s.pass_count) :
    handle_pass (m + 2) s = handle_pass 2 s := by
  show handle_pass (m + 1 + 1) s = handle_pass (1 + 1) s
  rw [handle_pass]
  rw [show handle_pass (1 + 1) s = _ from rfl]
  conv_rhs => rw [handle_pass]
  dsimp only
  by_cases hterm : (2 : Int) ≤ s.pass_count + 1 ∨ boardHasEmpty s.board = false
  · rw [if_pos hterm, if_pos hterm]
  · rw [if_neg hterm, if_neg hterm]
    push_neg at hterm
    obtain ⟨hlt, hemp⟩ := hterm
    split
    · rw [handle_pass_step _ m (Or.inl (by
        rw [(prepare_fields _).1]
        show (2 : Int) ≤ s.pass_count + 1 + 1
        omega))]
      rw [handle_pass_step _ 0 (Or.inl (by
        rw [(prepare_fields _).1]
        show (2 : Int) ≤ s.pass_count + 1 + 1
        omega))]
    · rfl

/-- C8: in every reachable state `pass_count` lies in `{0, 1, 2}`; each
pass step increments it by exactly 1 and stops the game the moment it
reaches 2 or the board has no empty cell; chained passes terminate after at
most two pass steps (fuel 2 computes the fixpoint, the recursion is not
unbounded); and every successful placement resets `pass_count` to 0 before
the turn advances. -/
theorem C8_pass_count_protocol :
    (∀ rng es, 0 ≤ (runTrace rng es).pass_count ∧ (runTrace rng es).pass_count ≤ 2) ∧
    (∀ (s : GameState) (fuel : Nat),
      ((2 : Int) ≤ s.pass_count + 1 ∨ boardHasEmpty s.board = false) →
      handle_pass (fuel + 1) s =
        { s with pass_count := s.pass_count + 1,
                 status_message := player_name s.current_side ++ " must pass",
                 running := false }) ∧
    (∀ (m : Nat) (s : GameState), 0 ≤ s.pass_count →
      handle_pass (m + 2) s = handle_pass 2 s) ∧
    (∀ (s : GameState) (row col : Int) (s1 : GameState),
      place_piece s row col = some (true, s1) →
      ∃ b m, s1 = advance_turn
        { s with board := b, status_message := m, pass_count := 0 }) := by
  refine ⟨?_, handle_pass_step, handle_pass_fuel_stable, ?_⟩
  · intro rng es
    exact ⟨(Inv_runTrace rng es).1, (Inv_runTrace rng es).2.1⟩
  · intro s row col s1 hp
    obtain ⟨-, -, stone, -, hs1⟩ := place_piece_accepted hp
    exact ⟨place_board s row col stone, place_msg s stone, hs1⟩

set_option maxRecDepth 100000 in
/-- Witness for C8: a pass step from `pass_count = 2`, fuel stability at
the fresh engine, and the reset performed by the accepted placement from
`c8ReadyState`. -/
theorem C8_pass_count_protocol_witness :
    handle_pass 1 c8State =
      { c8State with pass_count := c8State.pass_count + 1,
                     status_message := player_name c8State.current_side ++ " must pass",
                     running := false } ∧
    handle_pass 2 (initState []) = handle_pass 2 (initState []) ∧
    ∃ b m, c8Placed = advance_turn
      { c8ReadyState with board := b, status_message := m, pass_count := 0 } :=
  ⟨C8_pass_count_protocol.2.1 c8State 0 (Or.inl (by decide)),
   C8_pass_count_protocol.2.2.1 0 (initState []) (by decide),
   C8_pass_count_protocol.2.2.2 c8ReadyState 2 3 c8Placed (by decide)⟩

/-- The inline per-direction loop of `_simulate_move` computes exactly
`_flip_pieces` (its explicit non-empty check is redundant: an empty run
flips nothing either way). -/
theorem sim_flip_step_eq (row col intended : Int) (bb : Board) (d : Int × Int) :
    (if scanRun bb d.1 d.2 (opponent intended) (row + d.1) (col + d.2) 8 ≠ [] ∧
        inB (scanEnd bb d.1 d.2 (opponent intended) (row + d.1) (col + d.2) 8).1
          (scanEnd bb d.1 d.2 (opponent intended) (row + d.1) (col + d.2) 8).2 ∧
        getCell bb (scanEnd bb d.1 d.2 (opponent intended) (row + d.1) (col + d.2) 8).1
          (scanEnd bb d.1 d.2 (opponent intended) (row + d.1) (col + d.2) 8).2 = intended
      then
        (scanRun bb d.1 d.2 (opponent intended) (row + d.1) (col + d.2) 8).foldl
          (fun b2 p => setCell b2 p.1 p.2 intended) bb
      else bb)
    = flip_pieces bb row col d.1 d.2 intended := by
  unfold flip_pieces dirFlips
  dsimp only
  by_cases hrun : scanRun bb d.1 d.2 (opponent intended) (row + d.1) (col + d.2) 8 = []
  · rw [if_neg (fun hh => hh.1 hrun), hrun]
    split_ifs <;> rfl
  · by_cases hb : inB (scanEnd bb d.1 d.2 (opponent intended) (row + d.1) (col + d.2) 8).1
        (scanEnd bb d.1 d.2 (opponent intended) (row + d.1) (col + d.2) 8).2 ∧
        getCell bb (scanEnd bb d.1 d.2 (opponent intended) (row + d.1) (col + d.2) 8).1
          (scanEnd bb d.1 d.2 (opponent intended) (row + d.1) (col + d.2) 8).2 = intended
    · rw [if_pos ⟨hrun, hb⟩, if_pos hb]
    · rw [if_neg (fun hh => hb hh.2), if_neg hb]
      rfl

/-- `_simulate_move` computes the stone count of the very board
`place_piece` would produce, provided a `"maybe"` answer is not paired with
a mismatched stone — the one configuration where the two code paths differ,
and one the engine never produces (see the invariant). -/
theorem simulate_matches (s : GameState) (row col stone : Int)
    (hact : s.active_stone = some stone)
    (hok : stone = s.current_side ∨ s.last_answer ≠ "maybe") :
    simulate_move s row col
      = some (countStones (place_board s row col stone) s.current_side) := by
  unfold simulate_move
  rw [hact]
  dsimp only
  refine congrArg (fun b => some (countStones b s.current_side)) ?_
  unfold place_board place_board_stage1
  by_cases hm : stone = s.current_side
  · rw [if_pos hm, if_pos hm]
    have hfun := funext fun bb : Board => funext fun d : Int × Int =>
      sim_flip_step_eq row col s.current_side bb d
    rw [← hm] at hfun ⊢
    rw [hfun]
    split_ifs with hlm
    · rfl
    · rfl
  · have hlm : s.last_answer ≠ "maybe" := hok.resolve_left hm
    rw [if_neg hm, if_neg hlm, if_neg hm]

/-- C9: in every reachable state where the engine is ready (running, not
awaiting), for every move legal for `current_side` the placement is
accepted and `_simulate_move` returns exactly the number of `current_side`
stones on the board `place_piece` produces.  (`simulate_move` is a pure
function of the state: the real board is untouched by construction.) -/
theorem C9_simulate_matches_place :
    ∀ (s : GameState), Reachable s → s.running = true → s.awaiting_api = false →
    ∀ row col, is_valid_move s.board row col s.current_side = true →
    ∃ s', place_piece s row col = some (true, s') ∧
      simulate_move s row col = some (countStones s'.board s.current_side) := by
  intro s hreach hrun haw row col hvalid
  obtain ⟨rng, es, hes⟩ := hreach
  have hI : Inv s := by rw [← hes]; exact Inv_runTrace rng es
  obtain ⟨hsome, hmaybe⟩ := hI.2.2 hrun
  rcases hact : s.active_stone with _ | stone
  · rw [hact] at hsome
    simp at hsome
  · have hok : stone = s.current_side ∨ s.last_answer ≠ "maybe" := by
      by_cases hlm : s.last_answer = "maybe"
      · left
        have hms := hmaybe haw hlm
        rw [hact] at hms
        exact Option.some.inj hms
      · right
        exact hlm
    refine ⟨advance_turn
      { s with board := place_board s row col stone,
               status_message := place_msg s stone,
               pass_count := 0 }, ?_, ?_⟩
    · unfold place_piece
      rw [if_neg (by simp [haw, hvalid]), hact]
    · rw [advance_board]
      show simulate_move s row col
        = some (countStones (place_board s row col stone) s.current_side)
      exact simulate_matches s row col stone hact hok

set_option maxRecDepth 100000 in
/-- Witness for C9 at the fresh engine after its first "yes" answer and the
legal move (2,3). -/
theorem C9_simulate_matches_place_witness :
    ∃ s', place_piece (runTrace [] [.deliver "yes" none YES_STONE]) 2 3
        = some (true, s') ∧
      simulate_move (runTrace [] [.deliver "yes" none YES_STONE]) 2 3
        = some (countStones s'.board
            (runTrace [] [.deliver "yes" none YES_STONE]).current_side) :=
  C9_simulate_matches_place _ ⟨[], [.deliver "yes" none YES_STONE], rfl⟩ (by decide)
    (by decide) 2 3 (by decide)

set_option maxRecDepth 100000 in
/-- Witness for C7 at the placement (2,3) from `c7State`, read at the
neighbor (3,4). -/
theorem C7_maybe_radius_flips_witness :
    getCell c7Placed.board 3 4 =
      if max ((3 : Int) - 2).natAbs ((4 : Int) - 3).natAbs = 1 ∧
          getCell (place_board_stage1 c7State 2 3 YES_STONE) 3 4 = opponent YES_STONE
      then YES_STONE
      else getCell (place_board_stage1 c7State 2 3 YES_STONE) 3 4 :=
  C7_maybe_radius_flips c7State 2 3 YES_STONE c7Placed (by decide) (by decide) (by decide)
    (by decide) (by decide) 3 4 (by decide)

end YesNoOthello
